import Mathlib

/-!
# Verification of the hyperx-pulsefire-battery repository

Shallow embedding, in Lean 4, of the parts of the repository relevant to the
frozen claims:

* `src/hyperx_battery/protocol.py` — packet builders and response parsers
  (DPI enable mask, DPI value, macro upload chunking).
* `src/plasmangenuity/core/types.py` — `DeviceId.stable_key`.
* `src/plasmangenuity/core/manager.py` — `_DeviceManagerCore` (provider
  registration, discovery deduplication, battery polling).
* `src/plasmangenuity/tray.py` / `src/hyperx_battery/tray.py` —
  `_check_notifications` (battery notification state machine).

Conventions used throughout:

* Python `int` is embedded as `Int` (`Nat` where the Python value is a byte or
  a bit mask that is non-negative by construction).  Python `//` is `Int.fdiv`,
  Python `%`/`& 0xFF` on a positive modulus is `Int.emod`, and `>> k` is
  `Int.fdiv` by `2 ^ k`.
* Python `bytes(...)` raises `ValueError` unless every element is in
  `[0, 256)`; it is embedded as an `Option`-valued conversion.
* A Python statement that can raise an uncaught exception is embedded in
  `Except Unit`; `try/except` blocks are explicit `match`es on that result.
* Python `dict`s (insertion ordered, first writer of a key wins via
  `if key not in d`) are embedded as association lists with `List.lookup`.
-/

namespace PulsefireSpec

/-! ## Python byte-sequence primitives -/

/-- Python `bytes(packet)`: every element must be in `[0, 256)`, otherwise a
`ValueError` is raised (embedded as `none`). -/
def pyBytes (l : List Int) : Option (List Nat) :=
  if l.all (fun b => 0 ≤ b && b < 256) then some (l.map Int.toNat) else none

/-! ## `protocol.py`: constants -/

def PACKET_SIZE : Nat := 64
def CMD_DPI_QUERY : Nat := 0x53
def CMD_DPI_SET : Int := 0xD3
def CMD_MACRO_DATA : Int := 0xD6

/-- `DpiMode` values (`IntEnum` in the source). -/
def DpiMode.SELECT_PROFILE : Int := 0x00
def DpiMode.ENABLE_PROFILES : Int := 0x01
def DpiMode.SET_DPI_VALUE : Int := 0x02
def DpiMode.SET_COLOR : Int := 0x03

/-! ## `protocol.py`: `_make_packet` -/

/-- The 64-entry list built by `_make_packet` before the `bytes()` call:
`packet = [0x00] * 64; packet[0] = 0x00`, then `data[i]` is copied to
`packet[i+1]` for all `i` with `i + 1 < 64` (so entries of `data` past index
62 are silently dropped). -/
def padPacket (data : List Int) : List Int :=
  0 :: (data.take 63 ++ List.replicate (63 - data.length) 0)

/-- `_make_packet(data)`: 64-byte HID packet with report-ID prefix `0x00`. -/
def _make_packet (data : List Int) : Option (List Nat) :=
  pyBytes (padPacket data)

/-! ## `protocol.py`: `build_dpi_enable_packet` -/

/-- The bit-reversal loop of `build_dpi_enable_packet`:
`for i in range(5): if enable_mask & (1 << i): reversed_mask |= (1 << (4-i))`.
The mask is a non-negative bit mask, embedded as `Nat`. -/
def reverse5 (enable_mask : Nat) : Nat :=
  (List.range 5).foldl
    (fun acc i => if enable_mask &&& (1 <<< i) != 0 then acc ||| (1 <<< (4 - i)) else acc) 0

/-- `build_dpi_enable_packet(enable_mask)`. -/
def build_dpi_enable_packet (enable_mask : Nat) : Option (List Nat) :=
  _make_packet [CMD_DPI_SET, DpiMode.ENABLE_PROFILES, 0x00, 0x01, (reverse5 enable_mask : Int)]

/-! ## `protocol.py`: `build_dpi_value_packet` -/

/-- `build_dpi_value_packet(profile, dpi)`: clamp `profile` to `[0,4]` and
`dpi` to `[50,16000]`, round `dpi` down to a step of 50, and emit
`dpi // 50` as a little-endian 16-bit value. -/
def build_dpi_value_packet (profile dpi : Int) : Option (List Nat) :=
  let profile := max 0 (min 4 profile)
  let dpi := max 50 (min 16000 dpi)
  let dpi := (dpi.fdiv 50) * 50
  let dpi_scaled := dpi.fdiv 50
  let dpi_low := dpi_scaled % 256
  let dpi_high := (dpi_scaled.fdiv 256) % 256
  _make_packet [CMD_DPI_SET, DpiMode.SET_DPI_VALUE, profile, 0x02, dpi_low, dpi_high]

/-! ## `protocol.py`: `parse_dpi_settings` -/

/-- The dict returned by `parse_dpi_settings`. -/
structure DpiSettings where
  active_profile : Nat
  dpi_values : List Nat
  colors : List (Nat × Nat × Nat)
deriving DecidableEq

/-- `parse_dpi_settings(response)`: `None` unless the response is at least 30
bytes and starts with `CMD_DPI_QUERY`; DPI values are 2-byte little-endian
at offsets 10, 12, 14, 16, 18, each scaled by 50. -/
def parse_dpi_settings (response : List Nat) : Option DpiSettings :=
  if response.length < 30 ∨ response.getD 0 0 ≠ CMD_DPI_QUERY then none
  else some
    { active_profile := response.getD 5 0
      dpi_values :=
        [10, 12, 14, 16, 18].map
          (fun off => ((response.getD off 0) ||| ((response.getD (off + 1) 0) <<< 8)) * 50)
      colors :=
        (List.range 5).filterMap (fun i =>
          let off := 22 + i * 3
          if off + 2 < response.length then
            some (response.getD off 0, response.getD (off + 1) 0, response.getD (off + 2) 0)
          else none) }

/-! ## Helper lemmas -/

/-- Combining a low byte with a shifted high byte by bitwise or is plain
addition: `a ||| (b <<< 8) = a + b * 256` when `a < 256`. -/
theorem lor_shiftLeft8_eq (a b : Nat) (ha : a < 256) : a ||| (b <<< 8) = a + b * 256 := by
  apply Nat.eq_of_testBit_eq
  intro i
  rw [Nat.testBit_lor, Nat.testBit_shiftLeft]
  rcases Nat.lt_or_ge i 8 with hi | hi
  · have h8 : ¬ (8 ≤ i) := by omega
    simp only [h8, decide_False, Bool.false_and, Bool.or_false]
    rw [Nat.testBit_to_div_mod, Nat.testBit_to_div_mod, decide_eq_decide]
    interval_cases i <;> omega
  · obtain ⟨j, rfl⟩ : ∃ j, i = j + 8 := ⟨i - 8, by omega⟩
    have hle : (256 : Nat) ≤ 2 ^ (j + 8) := by
      calc (256 : Nat) = 2 ^ 8 := by norm_num
      _ ≤ 2 ^ (j + 8) := Nat.pow_le_pow_right (by norm_num) (by omega)
    have hfa : a.testBit (j + 8) = false :=
      Nat.testBit_eq_false_of_lt (lt_of_lt_of_le ha hle)
    have h8 : (8 : Nat) ≤ j + 8 := by omega
    simp only [hfa, Bool.false_or, h8, decide_True, Bool.true_and, Nat.add_sub_cancel]
    rw [Nat.testBit_to_div_mod, Nat.testBit_to_div_mod, decide_eq_decide]
    have hp : 2 ^ (j + 8) = 256 * 2 ^ j := by rw [Nat.pow_add]; ring
    rw [hp, ← Nat.div_div_eq_div_mul]
    have h256 : (a + b * 256) / 256 = b := by omega
    rw [h256]

/-- `_make_packet` succeeds and pads to 64 bytes whenever every data entry is
a byte value. -/
theorem _make_packet_eq (data : List Int) (h : ∀ b ∈ data, 0 ≤ b ∧ b < 256) :
    _make_packet data = some ((padPacket data).map Int.toNat) := by
  unfold _make_packet pyBytes
  rw [if_pos]
  rw [List.all_eq_true]
  intro b hb
  simp only [Bool.and_eq_true, decide_eq_true_eq]
  rcases List.mem_cons.mp hb with rfl | hb
  · omega
  rcases List.mem_append.mp hb with hb | hb
  · exact h b (List.mem_of_mem_take hb)
  · rw [List.eq_of_mem_replicate hb]; omega

/-! ## Claim C9: DPI enable-mask bit reversal -/

/-- **C9.** For every 5-bit mask `m`, frame byte 5 of the packet produced by
`build_dpi_enable_packet` is `reverse5 m`; bit `i` of the input appears as
bit `4 - i` of the wire byte; and `reverse5` is an involution on 5-bit
masks. -/
theorem claim9_dpi_enable_mask_reversal : ∀ m, m < 32 →
    ((build_dpi_enable_packet m).map (fun pkt => pkt.getD 5 0) = some (reverse5 m)) ∧
    (∀ i, i < 5 → (reverse5 m).testBit (4 - i) = m.testBit i) ∧
    reverse5 (reverse5 m) = m := by decide

/-- Witness for C9 at the concrete mask `0b00001` (profile 0 only), whose wire
value is `0b10000 = 16`. -/
theorem claim9_witness :
    (((build_dpi_enable_packet 1).map (fun pkt => pkt.getD 5 0) = some (reverse5 1)) ∧
      (∀ i, i < 5 → (reverse5 1).testBit (4 - i) = Nat.testBit 1 i) ∧
      reverse5 (reverse5 1) = 1) ∧ reverse5 1 = 16 :=
  ⟨claim9_dpi_enable_mask_reversal 1 (by decide), by decide⟩

/-! ## Claim C10: DPI value encode round-trip -/

/-- **C10.** `build_dpi_value_packet` clamps the DPI to `[50, 16000]` and
rounds it down to a step of 50 (any input encodes identically to its
clamped-and-floored value), and for every `d` in `[50, 16000]` that is a
multiple of 50 the wire bytes (frame bytes 5 and 6, little-endian 16-bit,
as decoded by `parse_dpi_settings` via `raw * 50`) recover exactly `d`. -/
theorem claim10_dpi_value_round_trip (profile dpi d : Int)
    (h1 : 50 ≤ d) (h2 : d ≤ 16000) (h3 : 50 ∣ d) :
    ((build_dpi_value_packet profile d).bind (fun pkt =>
        (parse_dpi_settings ([0x53, 0, 0, 0, 0, 0, 0, 0, 0, 0,
            pkt.getD 5 0, pkt.getD 6 0] ++ List.replicate 52 0)).map
          (fun s => s.dpi_values.getD 0 0)) = some d.toNat) ∧
    build_dpi_value_packet profile dpi
      = build_dpi_value_packet profile (((max 50 (min 16000 dpi)).fdiv 50) * 50) := by
  have hA : ∀ a : Int, a.fdiv 50 = a / 50 := fun a => Int.fdiv_eq_ediv _ (by norm_num)
  have hA2 : ∀ a : Int, a.fdiv 256 = a / 256 := fun a => Int.fdiv_eq_ediv _ (by norm_num)
  constructor
  · have hclamp : max 50 (min 16000 d) = d := by omega
    have hB : (d / 50) * 50 = d := by omega
    have key : build_dpi_value_packet profile d =
        _make_packet [CMD_DPI_SET, DpiMode.SET_DPI_VALUE, max 0 (min 4 profile), 0x02,
          (d / 50) % 256, ((d / 50) / 256) % 256] := by
      unfold build_dpi_value_packet
      simp only [hclamp, hA, hB, hA2]
    rw [key, _make_packet_eq]
    · simp only [Option.some_bind]
      have e5 : ((padPacket [CMD_DPI_SET, DpiMode.SET_DPI_VALUE, max 0 (min 4 profile), 0x02,
          (d / 50) % 256, ((d / 50) / 256) % 256]).map Int.toNat).getD 5 0
          = ((d / 50) % 256).toNat := rfl
      have e6 : ((padPacket [CMD_DPI_SET, DpiMode.SET_DPI_VALUE, max 0 (min 4 profile), 0x02,
          (d / 50) % 256, ((d / 50) / 256) % 256]).map Int.toNat).getD 6 0
          = (((d / 50) / 256) % 256).toNat := rfl
      rw [e5, e6]
      unfold parse_dpi_settings
      rw [if_neg]
      · rw [Option.map_some']
        congr 1
        show ((((d / 50) % 256).toNat ||| ((((d / 50) / 256) % 256).toNat <<< 8)) * 50 : Nat)
            = d.toNat
        rw [lor_shiftLeft8_eq _ _ (by omega)]
        omega
      · push_neg
        refine ⟨by simp, rfl⟩
    · intro b hb
      simp only [List.mem_cons, List.not_mem_nil, or_false] at hb
      have c1 : (0 : Int) ≤ CMD_DPI_SET ∧ CMD_DPI_SET < 256 := by norm_num [CMD_DPI_SET]
      have c2 : (0 : Int) ≤ DpiMode.SET_DPI_VALUE ∧ DpiMode.SET_DPI_VALUE < 256 := by
        norm_num [DpiMode.SET_DPI_VALUE]
      rcases hb with rfl | rfl | rfl | rfl | rfl | rfl
      · exact c1
      · exact c2
      · omega
      · omega
      · omega
      · omega
  · have hm0 : (0 : Int) ≤ max 50 (min 16000 dpi) := by omega
    have hcc : max 50 (min 16000 ((max 50 (min 16000 dpi) / 50) * 50))
        = (max 50 (min 16000 dpi) / 50) * 50 := by omega
    have hcf : (((max 50 (min 16000 dpi) / 50) * 50) / 50) * 50
        = (max 50 (min 16000 dpi) / 50) * 50 := by omega
    unfold build_dpi_value_packet
    simp only [hA, hcc, hcf]

/-- Witness for C10 at `profile = 0`, `d = 850`, `dpi = 873`: the wire bytes of
`build_dpi_value_packet 0 850` decode back to 850, and 873 encodes identically
to its floor 850. -/
theorem claim10_witness :
    ((build_dpi_value_packet 0 850).bind (fun pkt =>
        (parse_dpi_settings ([0x53, 0, 0, 0, 0, 0, 0, 0, 0, 0,
            pkt.getD 5 0, pkt.getD 6 0] ++ List.replicate 52 0)).map
          (fun s => s.dpi_values.getD 0 0)) = some (850 : Int).toNat) ∧
    build_dpi_value_packet 0 873
      = build_dpi_value_packet 0 (((max 50 (min 16000 (873 : Int))).fdiv 50) * 50) :=
  claim10_dpi_value_round_trip 0 873 850 (by norm_num) (by norm_num) (by norm_num)

/-! ## `tray.py`: battery notification state machine

Embedding of `_check_notifications` from `src/plasmangenuity/tray.py`
(the per-device generalisation of the identical logic in
`src/hyperx_battery/tray.py`).  The notification state for one device is the
dict `{"prev_battery": ..., "was_charging": ..., "thresholds": set(...)}`.
The `thresholds` set mixes `int` threshold values with the string marker
`"full"`; it is embedded as a duplicate-free list of `TMark`.  Comparing the
`"full"` marker against an `int` with `<` raises `TypeError` in Python,
embedded as `Except.error`.  The notification side effects (`notify-send`
invocations) are collected as a list of `NotifEvent` values.  On an
`Except.error` result the Python update aborts with an uncaught exception;
the partially-mutated state is not tracked by the embedding. -/

/-- An element of the `thresholds` set: an `int` threshold or `"full"`. -/
inductive TMark where
  | thr (t : Int)
  | full
deriving DecidableEq

/-- A `notify-send` side effect of `_check_notifications`. -/
inductive NotifEvent where
  | chargingStarted (percent : Option Int)
  | chargingStopped (percent : Option Int)
  | fullyCharged
  | lowBattery (threshold : Int) (percent : Int)
deriving DecidableEq

/-- The `notifications` section of the configuration.  Defaults in
`src/hyperx_battery/config.py` (`DEFAULTS["notifications"]`): `enabled=True`,
`thresholds=[20,10,5]`, `charging_notify=True`, `full_notify=True`. -/
structure NotifConfig where
  enabled : Bool
  thresholds : List Int
  charging_notify : Bool
  full_notify : Bool
deriving DecidableEq

def defaultNotifConfig : NotifConfig :=
  { enabled := true, thresholds := [20, 10, 5],
    charging_notify := true, full_notify := true }

/-- Per-device notification state (`self._notif_state[stable_key]`);
a fresh device starts as
`{"prev_battery": None, "was_charging": False, "thresholds": set()}`. -/
structure NotifState where
  prev_battery : Option Int
  was_charging : Bool
  thresholds : List TMark
deriving DecidableEq

def initNotifState : NotifState :=
  { prev_battery := none, was_charging := false, thresholds := [] }

/-- The percent/charging data of a `BatteryReading` that
`_check_notifications` reads (`reading.percent`, `reading.is_charging`). -/
structure ReadingData where
  percent : Option Int
  is_charging : Bool
deriving DecidableEq

/-- Python set `add`: no duplicates; embedded as append-if-absent. -/
def setAdd (s : List TMark) (m : TMark) : List TMark :=
  if m ∈ s then s else s ++ [m]

/-- Python `t < battery` where `t` is an element of the `thresholds` set:
an `int` compares normally, the `"full"` string raises `TypeError`. -/
def pyLtBattery (m : TMark) (battery : Int) : Except Unit Bool :=
  match m with
  | .thr t => .ok (decide (t < battery))
  | .full => .error ()

/-- The reset comprehension
`{t for t in state["thresholds"] if t < battery}`: keeps exactly the
elements with `t < battery`, raising `TypeError` if the set contains the
`"full"` marker. -/
def pyFilterThresholds (s : List TMark) (battery : Int) : Except Unit (List TMark) :=
  match s with
  | [] => .ok []
  | m :: ms => do
    let keep ← pyLtBattery m battery
    let rest ← pyFilterThresholds ms battery
    pure (if keep then m :: rest else rest)

/-- Python `sorted(l, reverse=True)` on a list of ints. -/
def sortDesc (l : List Int) : List Int :=
  l.insertionSort (fun a b => b ≤ a)

/-- The low-battery threshold loop:
`for threshold in thresholds: if battery <= threshold < prev: if threshold
not in fired: send; fired.add(threshold)`. -/
def lowBatteryLoop (battery prev : Int) (thresholds : List Int)
    (state : List NotifEvent × List TMark) : List NotifEvent × List TMark :=
  thresholds.foldl
    (fun acc t =>
      if battery ≤ t ∧ t < prev then
        if TMark.thr t ∈ acc.2 then acc
        else (acc.1 ++ [NotifEvent.lowBattery t battery], setAdd acc.2 (.thr t))
      else acc)
    state

/-- The charging-edge block: charging started/stopped notifications; on a
charging-start edge the fired set is cleared (`state["thresholds"].clear()`),
but only when `charging_notify` is enabled. -/
def chargingBlock (cfg : NotifConfig) (st : NotifState) (r : ReadingData) :
    List NotifEvent × List TMark :=
  if cfg.charging_notify then
    if r.is_charging && !st.was_charging then
      ([NotifEvent.chargingStarted r.percent], [])
    else if !r.is_charging && st.was_charging then
      ([NotifEvent.chargingStopped r.percent], st.thresholds)
    else ([], st.thresholds)
  else ([], st.thresholds)

/-- The fully-charged block: adds the `"full"` marker once while charging at
100%. -/
def fullBlock (cfg : NotifConfig) (charging : Bool) (battery : Option Int)
    (fired : List TMark) : List NotifEvent × List TMark :=
  if cfg.full_notify && charging && battery == some 100 then
    if TMark.full ∈ fired then ([], fired)
    else ([NotifEvent.fullyCharged], setAdd fired .full)
  else ([], fired)

/-- The low-battery block: runs the threshold loop only when discharging and
both the current and previous percents are present. -/
def lowBlock (cfg : NotifConfig) (charging : Bool) (battery prev : Option Int)
    (fired : List TMark) : List NotifEvent × List TMark :=
  if !charging then
    match battery, prev with
    | some b, some p => lowBatteryLoop b p (sortDesc cfg.thresholds) ([], fired)
    | _, _ => ([], fired)
  else ([], fired)

/-- The reset block:
`if prev_battery is not None and battery is not None and battery > prev:
state["thresholds"] = {t for t in state["thresholds"] if t < battery}`. -/
def resetBlock (battery prev : Option Int) (fired : List TMark) :
    Except Unit (List TMark) :=
  match battery, prev with
  | some b, some p => if p < b then pyFilterThresholds fired b else .ok fired
  | _, _ => .ok fired

/-- `_check_notifications(stable_key, reading)` for one device: returns the
updated per-device state and the notifications sent, or `Except.error` when
the Python code would raise an uncaught `TypeError`. -/
def _check_notifications (cfg : NotifConfig) (st : NotifState) (r : ReadingData) :
    Except Unit (NotifState × List NotifEvent) :=
  if !cfg.enabled then .ok (st, [])
  else
    let cres := chargingBlock cfg st r
    let fres := fullBlock cfg r.is_charging r.percent cres.2
    let lres := lowBlock cfg r.is_charging r.percent st.prev_battery fres.2
    match resetBlock r.percent st.prev_battery lres.2 with
    | .error e => .error e
    | .ok fired4 =>
      .ok ({ prev_battery := r.percent, was_charging := r.is_charging,
             thresholds := fired4 },
        cres.1 ++ fres.1 ++ lres.1)

/-- Feed a sequence of readings through `_check_notifications`, collecting
the notifications emitted at each step. -/
def runNotifications (cfg : NotifConfig) (st : NotifState) :
    List ReadingData → Except Unit (NotifState × List (List NotifEvent))
  | [] => .ok (st, [])
  | r :: rs =>
    match _check_notifications cfg st r with
    | .error e => .error e
    | .ok (st1, evs) =>
      match runNotifications cfg st1 rs with
      | .error e => .error e
      | .ok (st2, evss) => .ok (st2, evs :: evss)

/-! ## Claim C1: hysteresis reset of fired thresholds

The spec says that when the percent rises, every fired threshold `t` with
`percent > t` is dropped from the fired set; on `[30,15,5,25,9]` with
thresholds `[20,10,5]` it expects threshold 20 to be removed after the
reading of 25.  The reset comprehension in the code keeps exactly the
elements with `t < battery`, so after the reading of 25 the fired set is
still `{20, 10, 5}`: nothing the spec says should be dropped is dropped. -/

/-- **C1 (code bug).** Evaluating the notification update on the spec's own
example sequence `[30,15,5,25,9]` (all discharging, default thresholds
`[20,10,5]`): threshold 20 fires at 15, thresholds 10 and 5 fire at 5, and
after the rise to 25 the fired set still contains all of 20, 10 and 5 —
threshold 20 is *not* un-latched, contradicting the claimed hysteresis
reset, and consequently nothing refires at 9. -/
theorem claim1_reset_comprehension_is_inverted :
    runNotifications defaultNotifConfig initNotifState
      [⟨some 30, false⟩, ⟨some 15, false⟩, ⟨some 5, false⟩,
        ⟨some 25, false⟩, ⟨some 9, false⟩]
    = .ok ({ prev_battery := some 9, was_charging := false,
             thresholds := [.thr 20, .thr 10, .thr 5] },
           [[], [.lowBattery 20 15], [.lowBattery 10 5, .lowBattery 5 5], [], []]) := by
  rfl

/-! ## Claim C2: notification update never raises

The `thresholds` set mixes the string `"full"` with `int` values; the reset
comprehension compares every element against `battery` with `<`, which
raises `TypeError` for `"full"`. -/

/-- **C2 (code bug).** With notifications enabled and the default
configuration, the charging sequence `100 → 99 → 100` adds the `"full"`
marker at the first reading and then rises from 99 to 100, making the reset
comprehension compare `"full" < 100` — a `TypeError`, i.e. the update does
*not* complete normally. -/
theorem claim2_full_marker_typeerror :
    runNotifications defaultNotifConfig initNotifState
      [⟨some 100, true⟩, ⟨some 99, true⟩, ⟨some 100, true⟩] = .error () := by
  rfl

/-! ## Claim C3: helper lemmas about the low-battery threshold loop -/

/-- Events already accumulated are preserved by the threshold loop. -/
theorem lowBatteryLoop_mono (battery prev : Int) (ts : List Int)
    (acc : List NotifEvent × List TMark) (e : NotifEvent) (he : e ∈ acc.1) :
    e ∈ (lowBatteryLoop battery prev ts acc).1 := by
  induction ts generalizing acc with
  | nil => exact he
  | cons u us ih =>
    unfold lowBatteryLoop
    rw [List.foldl_cons]
    apply ih
    split
    · split
      · exact he
      · exact List.mem_append_left _ he
    · exact he

/-- Soundness: every event produced by the threshold loop is either inherited
from the accumulator or a low-battery event for some configured threshold
with `battery ≤ t < prev`. -/
theorem lowBatteryLoop_sound (battery prev : Int) (ts : List Int)
    (acc : List NotifEvent × List TMark) (e : NotifEvent)
    (he : e ∈ (lowBatteryLoop battery prev ts acc).1) :
    e ∈ acc.1 ∨ ∃ t, t ∈ ts ∧ e = .lowBattery t battery ∧ battery ≤ t ∧ t < prev := by
  induction ts generalizing acc with
  | nil => exact Or.inl he
  | cons u us ih =>
    unfold lowBatteryLoop at he
    rw [List.foldl_cons] at he
    rcases ih _ he with hacc | ⟨t, ht, rfl, h1, h2⟩
    · split at hacc
      · split at hacc
        · exact Or.inl hacc
        · rcases List.mem_append.mp hacc with h | h
          · exact Or.inl h
          · rcases List.mem_singleton.mp h with rfl
            exact Or.inr ⟨u, List.mem_cons_self _ _, rfl, by omega, by omega⟩
      · exact Or.inl hacc
    · exact Or.inr ⟨t, List.mem_cons_of_mem _ ht, rfl, h1, h2⟩

/-- The threshold loop only ever adds `TMark.thr` entries to the fired set. -/
theorem lowBatteryLoop_fired_sound (battery prev : Int) (ts : List Int)
    (acc : List NotifEvent × List TMark) (m : TMark)
    (hm : m ∈ (lowBatteryLoop battery prev ts acc).2) :
    m ∈ acc.2 ∨ ∃ t, t ∈ ts ∧ m = .thr t := by
  induction ts generalizing acc with
  | nil => exact Or.inl hm
  | cons u us ih =>
    unfold lowBatteryLoop at hm
    rw [List.foldl_cons] at hm
    rcases ih _ hm with hacc | ⟨t, ht, rfl⟩
    · split at hacc
      · split at hacc
        · exact Or.inl hacc
        · unfold setAdd at hacc
          split at hacc
          · exact Or.inl hacc
          · rcases List.mem_append.mp hacc with h | h
            · exact Or.inl h
            · rcases List.mem_singleton.mp h with rfl
              exact Or.inr ⟨u, List.mem_cons_self _ _, rfl⟩
      · exact Or.inl hacc
    · exact Or.inr ⟨t, List.mem_cons_of_mem _ ht, rfl⟩

/-- Completeness: if a configured threshold `t` satisfies the crossing
condition and is not yet in the fired set, the loop emits its event. -/
theorem lowBatteryLoop_complete (battery prev : Int) (ts : List Int)
    (acc : List NotifEvent × List TMark) (t : Int)
    (ht : t ∈ ts) (h1 : battery ≤ t) (h2 : t < prev) (hnot : TMark.thr t ∉ acc.2) :
    NotifEvent.lowBattery t battery ∈ (lowBatteryLoop battery prev ts acc).1 := by
  induction ts generalizing acc with
  | nil => cases ht
  | cons u us ih =>
    unfold lowBatteryLoop
    rw [List.foldl_cons]
    by_cases hcond : battery ≤ u ∧ u < prev
    · rw [if_pos hcond]
      by_cases hmemu : TMark.thr u ∈ acc.2
      · rw [if_pos hmemu]
        rcases List.mem_cons.mp ht with rfl | hts
        · exact absurd hmemu hnot
        · exact ih _ hts hnot
      · rw [if_neg hmemu]
        by_cases hut : u = t
        · subst hut
          exact lowBatteryLoop_mono _ _ _ _ _
            (List.mem_append_right _ (List.mem_singleton_self _))
        · rcases List.mem_cons.mp ht with rfl | hts
          · exact absurd rfl (fun h => hut h.symm)
          · apply ih _ hts
            intro hmem
            unfold setAdd at hmem
            split at hmem
            · exact hnot hmem
            · rcases List.mem_append.mp hmem with h | h
              · exact hnot h
              · have h2 := List.mem_singleton.mp h
                injection h2 with h3
                exact hut h3.symm
    · rw [if_neg hcond]
      rcases List.mem_cons.mp ht with rfl | hts
      · exact absurd ⟨h1, h2⟩ hcond
      · exact ih _ hts hnot

/-- A successful notification update (with notifications enabled) records the
reading's percent and charging flag into the per-device state. -/
theorem check_state_update (cfg : NotifConfig) (st : NotifState) (r : ReadingData)
    (st' : NotifState) (evs : List NotifEvent) (he : cfg.enabled = true)
    (h : _check_notifications cfg st r = .ok (st', evs)) :
    st'.prev_battery = r.percent ∧ st'.was_charging = r.is_charging := by
  unfold _check_notifications at h
  rw [he] at h
  simp only [Bool.not_true, Bool.false_eq_true, if_false] at h
  split at h
  · cases h
  · rw [Except.ok.injEq, Prod.mk.injEq] at h
    rw [← h.1]
    exact ⟨rfl, rfl⟩

/-- A threshold whose mark is already in the fired set at loop entry does not
fire (its event can only come from the accumulator). -/
theorem lowBatteryLoop_not_refire (battery prev : Int) (ts : List Int)
    (acc : List NotifEvent × List TMark) (t b : Int)
    (hmem : TMark.thr t ∈ acc.2)
    (he : NotifEvent.lowBattery t b ∈ (lowBatteryLoop battery prev ts acc).1) :
    NotifEvent.lowBattery t b ∈ acc.1 := by
  induction ts generalizing acc with
  | nil => exact he
  | cons u us ih =>
    unfold lowBatteryLoop at he
    rw [List.foldl_cons] at he
    by_cases hcond : battery ≤ u ∧ u < prev
    · rw [if_pos hcond] at he
      by_cases hmemu : TMark.thr u ∈ acc.2
      · rw [if_pos hmemu] at he
        exact ih _ hmem he
      · rw [if_neg hmemu] at he
        have hut : u ≠ t := fun h => hmemu (h ▸ hmem)
        have h2 : NotifEvent.lowBattery t b ∈ acc.1 ++ [NotifEvent.lowBattery u battery] := by
          apply ih _ _ he
          unfold setAdd
          split
          · exact hmem
          · exact List.mem_append_left _ hmem
        rcases List.mem_append.mp h2 with h3 | h3
        · exact h3
        · have h4 := List.mem_singleton.mp h3
          injection h4 with h5 h6
          exact absurd h5.symm hut
    · rw [if_neg hcond] at he
      exact ih _ hmem he

/-- The charging-edge block never emits a low-battery event. -/
theorem chargingBlock_no_low (cfg : NotifConfig) (st : NotifState) (r : ReadingData)
    (t b : Int) : NotifEvent.lowBattery t b ∉ (chargingBlock cfg st r).1 := by
  unfold chargingBlock
  split
  · split
    · intro h
      rcases List.mem_singleton.mp h with h
      cases h
    · split
      · intro h
        rcases List.mem_singleton.mp h with h
        cases h
      · exact List.not_mem_nil _
  · exact List.not_mem_nil _

/-- While discharging, the charging-edge block leaves the fired set intact. -/
theorem chargingBlock_fired (cfg : NotifConfig) (st : NotifState) (r : ReadingData)
    (hc : r.is_charging = false) : (chargingBlock cfg st r).2 = st.thresholds := by
  unfold chargingBlock
  rw [hc]
  split
  · split
    · rename_i h1
      simp at h1
    · split <;> rfl
  · rfl

/-- The fully-charged block never emits a low-battery event. -/
theorem fullBlock_no_low (cfg : NotifConfig) (charging : Bool) (battery : Option Int)
    (fired : List TMark) (t b : Int) :
    NotifEvent.lowBattery t b ∉ (fullBlock cfg charging battery fired).1 := by
  unfold fullBlock
  split
  · split
    · exact List.not_mem_nil _
    · intro h
      rcases List.mem_singleton.mp h with h
      cases h
  · exact List.not_mem_nil _

/-- While discharging, the fully-charged block leaves the fired set intact. -/
theorem fullBlock_fired (cfg : NotifConfig) (battery : Option Int)
    (fired : List TMark) : (fullBlock cfg false battery fired).2 = fired := by
  unfold fullBlock
  simp

/-- **Per-step firing characterisation.**  In a successful notification
update, a low-battery event for threshold `t` at percent `b` is emitted iff
notifications are enabled, the device is discharging, the reading's percent
is `b`, `t` is a configured threshold with `b ≤ t < previous percent`, and
`t` is not already latched in the fired set. -/
theorem check_low_iff (cfg : NotifConfig) (st : NotifState) (r : ReadingData)
    (st' : NotifState) (evs : List NotifEvent) (t b : Int)
    (h : _check_notifications cfg st r = .ok (st', evs)) :
    NotifEvent.lowBattery t b ∈ evs ↔
      (cfg.enabled = true ∧ r.is_charging = false ∧ r.percent = some b ∧
        t ∈ cfg.thresholds ∧
        ∃ p, st.prev_battery = some p ∧ b ≤ t ∧ t < p ∧
          TMark.thr t ∉ st.thresholds) := by
  by_cases he : cfg.enabled = true
  · unfold _check_notifications at h
    rw [he] at h
    simp only [Bool.not_true, Bool.false_eq_true, if_false] at h
    split at h
    · cases h
    · rw [Except.ok.injEq, Prod.mk.injEq] at h
      rw [← h.2]
      by_cases hc : r.is_charging = false
      · -- discharging: the charging and full blocks pass the fired set through
        have hfired : (fullBlock cfg r.is_charging r.percent
            (chargingBlock cfg st r).2).2 = st.thresholds := by
          rw [hc, fullBlock_fired, chargingBlock_fired cfg st r hc]
        constructor
        · intro hmem
          rcases List.mem_append.mp hmem with hmem1 | hlow
          · rcases List.mem_append.mp hmem1 with hmem2 | hful
            · exact absurd hmem2 (chargingBlock_no_low cfg st r t b)
            · exact absurd hful (fullBlock_no_low cfg r.is_charging r.percent _ t b)
          · unfold lowBlock at hlow
            rw [hfired, hc] at hlow
            simp only [Bool.not_false, if_true] at hlow
            rcases hrp : r.percent with _ | b0 <;> rw [hrp] at hlow
            · cases hlow
            rcases hsp : st.prev_battery with _ | p0 <;> rw [hsp] at hlow
            · cases hlow
            rcases lowBatteryLoop_sound _ _ _ _ _ hlow with hnil | ⟨t0, ht0, hev, h1, h2⟩
            · cases hnil
            · injection hev with het heb
              subst het
              subst heb
              refine ⟨he, hc, rfl, ?_, p0, rfl, h1, h2, ?_⟩
              · exact ((List.perm_insertionSort _ cfg.thresholds).mem_iff).mp ht0
              · intro hmem0
                have hnil2 := lowBatteryLoop_not_refire b p0 (sortDesc cfg.thresholds)
                  ([], st.thresholds) t b hmem0 hlow
                cases hnil2
        · rintro ⟨-, -, hperc, hcfg, p, hprev, h1, h2, hnot⟩
          apply List.mem_append_right
          unfold lowBlock
          rw [hfired, hc, hperc, hprev]
          simp only [Bool.not_false, if_true]
          apply lowBatteryLoop_complete
          · exact ((List.perm_insertionSort _ cfg.thresholds).mem_iff).mpr hcfg
          · exact h1
          · exact h2
          · exact hnot
      · -- charging: no low-battery events, and the right side is false
        rw [Bool.not_eq_false] at hc
        constructor
        · intro hmem
          rcases List.mem_append.mp hmem with hmem1 | hlow
          · rcases List.mem_append.mp hmem1 with hmem2 | hful
            · exact absurd hmem2 (chargingBlock_no_low cfg st r t b)
            · exact absurd hful (fullBlock_no_low cfg r.is_charging r.percent _ t b)
          · unfold lowBlock at hlow
            rw [hc] at hlow
            simp only [Bool.not_true, Bool.false_eq_true, if_false] at hlow
            cases hlow
        · rintro ⟨-, hcf, -⟩
          rw [hc] at hcf
          cases hcf
  · unfold _check_notifications at h
    rw [Bool.not_eq_true] at he
    rw [he] at h
    simp only [Bool.not_false, if_true, Except.ok.injEq, Prod.mk.injEq] at h
    rw [← h.2]
    simp only [List.not_mem_nil, false_iff]
    rintro ⟨hce, -⟩
    rw [he] at hce
    cases hce

/-- After a successful run (with notifications enabled), the state is either
untouched (empty run) or its `prev_battery` is the percent of one of the
processed readings. -/
theorem run_prev (cfg : NotifConfig) (st : NotifState) (rs : List ReadingData)
    (st2 : NotifState) (evss : List (List NotifEvent)) (he : cfg.enabled = true)
    (h : runNotifications cfg st rs = .ok (st2, evss)) :
    st2 = st ∨ ∃ rr ∈ rs, st2.prev_battery = rr.percent := by
  induction rs generalizing st evss with
  | nil =>
    unfold runNotifications at h
    rw [Except.ok.injEq, Prod.mk.injEq] at h
    exact Or.inl h.1.symm
  | cons r rs ih =>
    unfold runNotifications at h
    split at h
    · cases h
    · rename_i st1 evs h1
      split at h
      · cases h
      · rename_i st2a evssa h2
        rw [Except.ok.injEq, Prod.mk.injEq] at h
        rw [h.1] at h2
        rcases ih st1 evssa h2 with hid | ⟨rr, hmem, hpr⟩
        · right
          refine ⟨r, List.mem_cons_self _ _, ?_⟩
          rw [hid]
          exact (check_state_update cfg st r st1 evs he h1).1
        · exact Or.inr ⟨rr, List.mem_cons_of_mem _ hmem, hpr⟩

/-! ## Claim C3: a threshold never fires twice without a rise above it -/

/-- **C3.** Low-battery threshold firing discipline.
Part 1: in any successful update, threshold `t` fires at percent `b` exactly
when notifications are enabled, the device is discharging, the reading's
percent is `b`, `t` is configured, `b ≤ t <` previous percent, and `t` is
not already latched.
Part 2: over any run, if `t` fires at reading `r1` and again at a later
reading `r2`, then some intermediate reading carried a percent strictly
above `t` — `t` cannot fire twice without an intervening rise above it. -/
theorem claim3_threshold_fires_once :
    (∀ (cfg : NotifConfig) (st : NotifState) (r : ReadingData)
        (st' : NotifState) (evs : List NotifEvent) (t b : Int),
      _check_notifications cfg st r = .ok (st', evs) →
      (NotifEvent.lowBattery t b ∈ evs ↔
        (cfg.enabled = true ∧ r.is_charging = false ∧ r.percent = some b ∧
          t ∈ cfg.thresholds ∧
          ∃ p, st.prev_battery = some p ∧ b ≤ t ∧ t < p ∧
            TMark.thr t ∉ st.thresholds))) ∧
    (∀ (cfg : NotifConfig) (st0 : NotifState) (r1 r2 : ReadingData)
        (mid : List ReadingData) (st1 st2 st3 : NotifState)
        (ev1 ev2 : List NotifEvent) (emid : List (List NotifEvent)) (t b1 b2 : Int),
      _check_notifications cfg st0 r1 = .ok (st1, ev1) →
      runNotifications cfg st1 mid = .ok (st2, emid) →
      _check_notifications cfg st2 r2 = .ok (st3, ev2) →
      NotifEvent.lowBattery t b1 ∈ ev1 →
      NotifEvent.lowBattery t b2 ∈ ev2 →
      ∃ rr ∈ mid, ∃ q, rr.percent = some q ∧ t < q) := by
  constructor
  · exact fun cfg st r st' evs t b h => check_low_iff cfg st r st' evs t b h
  · intro cfg st0 r1 r2 mid st1 st2 st3 ev1 ev2 emid t b1 b2 h1 hm h2 hf1 hf2
    have c1 := (check_low_iff cfg st0 r1 st1 ev1 t b1 h1).mp hf1
    have c2 := (check_low_iff cfg st2 r2 st3 ev2 t b2 h2).mp hf2
    obtain ⟨he, -, hperc1, -, p1, -, hble1, -, -⟩ := c1
    obtain ⟨-, -, -, -, p2, hprev2, -, hlt2, -⟩ := c2
    have hst1 := (check_state_update cfg st0 r1 st1 ev1 he h1).1
    rcases run_prev cfg st1 mid st2 emid he hm with hid | ⟨rr, hmem, hpr⟩
    · rw [hid, hst1, hperc1] at hprev2
      rw [Option.some.injEq] at hprev2
      omega
    · exact ⟨rr, hmem, p2, by rw [← hpr, hprev2], hlt2⟩

/-- Witness for C3: with default config, from state `(prev=30, fired=∅)`,
threshold 20 fires at 15, is un-latched across the readings 18 and 21, and
fires again at 15 — and indeed one of the intermediate readings (21) rose
strictly above 20. -/
theorem claim3_witness :
    ∃ rr ∈ [ReadingData.mk (some 18) false, ReadingData.mk (some 21) false],
      ∃ q, rr.percent = some q ∧ (20 : Int) < q :=
  claim3_threshold_fires_once.2 defaultNotifConfig
    ⟨some 30, false, []⟩ ⟨some 15, false⟩ ⟨some 15, false⟩
    [⟨some 18, false⟩, ⟨some 21, false⟩]
    ⟨some 15, false, [.thr 20]⟩ ⟨some 21, false, []⟩ ⟨some 15, false, [.thr 20]⟩
    [.lowBattery 20 15] [.lowBattery 20 15] [[], []] 20 15 15
    rfl rfl rfl (by decide) (by decide)

/-! ## `core/types.py`: `DeviceId` and `stable_key`

`DeviceId.stable_key` guards with Python *truthiness*:
`if self.vendor_id and self.product_id and self.serial` is false not only for
`None` but also for `vendor_id == 0`, `product_id == 0` and `serial == ""`. -/

/-- `ProviderType` enum from `core/types.py`. -/
inductive ProviderType where
  | UPOWER
  | SYSFS
  | HID_PROPRIETARY
deriving DecidableEq

/-- `DeviceId` dataclass from `core/types.py`. -/
structure DeviceId where
  provider : ProviderType
  path : String
  vendor_id : Option Int := none
  product_id : Option Int := none
  serial : Option String := none
deriving DecidableEq

/-- Hex digits of a natural number, lowercase, as produced by Python's `x`
format code. -/
def natHex (n : Nat) : String := ⟨Nat.toDigits 16 n⟩

/-- Zero-pad a digit string on the left to width `w`. -/
def pad0 (w : Nat) (s : String) : String :=
  ⟨List.replicate (w - s.length) '0'⟩ ++ s

/-- Python `f"{n:04x}"`: zero-padded to width 4, sign-aware for negatives. -/
def pyHex04 (n : Int) : String :=
  if n < 0 then "-" ++ pad0 3 (natHex (-n).toNat) else pad0 4 (natHex n.toNat)

/-- Python truthiness of an `Optional[int]`: `None` and `0` are falsy. -/
def optIntTruthy : Option Int → Bool
  | none => false
  | some n => n != 0

/-- Python truthiness of an `Optional[str]`: `None` and `""` are falsy. -/
def optStrTruthy : Option String → Bool
  | none => false
  | some s => s != ""

/-- `DeviceId.stable_key`:
`f"{vid:04x}:{pid:04x}:{serial}"` if `vendor_id and product_id and serial`
are all truthy, else `f"{vid:04x}:{pid:04x}"` if both ids are truthy, else
the raw `path`. -/
def DeviceId.stable_key (d : DeviceId) : String :=
  if optIntTruthy d.vendor_id && optIntTruthy d.product_id && optStrTruthy d.serial then
    pyHex04 (d.vendor_id.getD 0) ++ ":" ++ pyHex04 (d.product_id.getD 0) ++ ":"
      ++ d.serial.getD ""
  else if optIntTruthy d.vendor_id && optIntTruthy d.product_id then
    pyHex04 (d.vendor_id.getD 0) ++ ":" ++ pyHex04 (d.product_id.getD 0)
  else d.path

/-! ## Claim C6: stable-key derivation formula -/

/-- The formula exactly as the claim states it (presence-based, `not None`):
three-part when `vendor_id`, `product_id` and `serial` are all present,
else two-part when both ids are present, else the raw path.  Named
separately so it can be compared against the code's `stable_key`. -/
def stable_key_claimC6 (d : DeviceId) : String :=
  match d.vendor_id, d.product_id, d.serial with
  | some v, some p, some s => pyHex04 v ++ ":" ++ pyHex04 p ++ ":" ++ s
  | some v, some p, none => pyHex04 v ++ ":" ++ pyHex04 p
  | _, _, _ => d.path

/-- **C6 counterexample.** At the boundary value `vendor_id = 0` (present but
falsy) with `product_id = 1` and `serial = "s"`, the claimed formula yields
`"0000:0001:s"` but the code falls through both truthiness guards and
returns the raw path. -/
theorem claim6_counterexample :
    stable_key_claimC6 ⟨.SYSFS, "hidraw3", some 0, some 1, some "s"⟩ = "0000:0001:s" ∧
    DeviceId.stable_key ⟨.SYSFS, "hidraw3", some 0, some 1, some "s"⟩ = "hidraw3" ∧
    DeviceId.stable_key ⟨.SYSFS, "hidraw3", some 0, some 1, some "s"⟩
      ≠ stable_key_claimC6 ⟨.SYSFS, "hidraw3", some 0, some 1, some "s"⟩ := by
  refine ⟨rfl, rfl, ?_⟩
  decide

/-- **C6 (amended).** The stable-key formula holds with the presence
conditions corrected to Python truthiness: the three-part form requires
nonzero ids and a nonempty serial, the two-part form requires nonzero ids,
and everything else (including `vendor_id = 0` and the empty serial for the
three-part form) falls back. -/
theorem claim6_amended_stable_key_formula (d : DeviceId) :
    (∀ v p s, d.vendor_id = some v → d.product_id = some p → d.serial = some s →
      v ≠ 0 → p ≠ 0 → s ≠ "" →
      d.stable_key = pyHex04 v ++ ":" ++ pyHex04 p ++ ":" ++ s) ∧
    (∀ v p, d.vendor_id = some v → d.product_id = some p → v ≠ 0 → p ≠ 0 →
      optStrTruthy d.serial = false →
      d.stable_key = pyHex04 v ++ ":" ++ pyHex04 p) ∧
    ((optIntTruthy d.vendor_id = false ∨ optIntTruthy d.product_id = false) →
      d.stable_key = d.path) := by
  refine ⟨?_, ?_, ?_⟩
  · intro v p s hv hp hs hv0 hp0 hs0
    unfold DeviceId.stable_key
    rw [hv, hp, hs]
    rw [if_pos]
    · rfl
    · simp only [optIntTruthy, optStrTruthy, Bool.and_eq_true, bne_iff_ne, ne_eq]
      exact ⟨⟨hv0, hp0⟩, hs0⟩
  · intro v p hv hp hv0 hp0 hser
    unfold DeviceId.stable_key
    rw [hv, hp]
    rw [if_neg, if_pos]
    · rfl
    · simp only [optIntTruthy, Bool.and_eq_true, bne_iff_ne, ne_eq]
      exact ⟨hv0, hp0⟩
    · rw [hser]
      simp
  · intro hfalse
    unfold DeviceId.stable_key
    rcases hfalse with hf | hf <;> rw [hf] <;> simp

/-- Witness for the amended C6 at concrete boundary inputs: a fully truthy
id triple takes the three-part form, an empty serial falls to the two-part
form, and `vendor_id = 0` falls to the path. -/
theorem claim6_witness :
    DeviceId.stable_key ⟨.UPOWER, "p1", some 0x951, some 0x16E1, some "AB"⟩
      = pyHex04 0x951 ++ ":" ++ pyHex04 0x16E1 ++ ":" ++ "AB" ∧
    DeviceId.stable_key ⟨.UPOWER, "p2", some 0x951, some 0x16E1, some ""⟩
      = pyHex04 0x951 ++ ":" ++ pyHex04 0x16E1 ∧
    DeviceId.stable_key ⟨.UPOWER, "p3", some 0, some 0x16E1, some "AB"⟩ = "p3" :=
  ⟨(claim6_amended_stable_key_formula _).1 0x951 0x16E1 "AB" rfl rfl rfl
      (by decide) (by decide) (by decide),
    (claim6_amended_stable_key_formula _).2.1 0x951 0x16E1 rfl rfl
      (by decide) (by decide) (by decide),
    (claim6_amended_stable_key_formula _).2.2 (Or.inl (by decide))⟩

/-! ## Claim C5: stable-key derivation is path- and source-independent -/

/-- **C5 counterexample.** Two `DeviceId`s with identical (all-absent)
`(vendor_id, product_id, serial)` tuples but different paths produce
different stable keys: the fallback is the provider-specific path, so key
derivation is *not* path-independent when the ids are absent. -/
theorem claim5_counterexample :
    ((DeviceId.mk .UPOWER "a" none none none).vendor_id,
      (DeviceId.mk .UPOWER "a" none none none).product_id,
      (DeviceId.mk .UPOWER "a" none none none).serial)
      = ((DeviceId.mk .SYSFS "b" none none none).vendor_id,
          (DeviceId.mk .SYSFS "b" none none none).product_id,
          (DeviceId.mk .SYSFS "b" none none none).serial) ∧
    DeviceId.stable_key (DeviceId.mk .UPOWER "a" none none none)
      ≠ DeviceId.stable_key (DeviceId.mk .SYSFS "b" none none none) := by
  refine ⟨rfl, ?_⟩
  decide

/-- **C5 (amended).** Stable-key derivation ignores the provider and the
path whenever both ids are truthy (present and nonzero): two `DeviceId`s
with equal `(vendor_id, product_id, serial)` tuples and truthy ids derive
equal keys, whatever their providers and paths. -/
theorem claim5_amended_key_path_independent (d1 d2 : DeviceId)
    (h1 : d1.vendor_id = d2.vendor_id) (h2 : d1.product_id = d2.product_id)
    (h3 : d1.serial = d2.serial)
    (ht1 : optIntTruthy d1.vendor_id = true) (ht2 : optIntTruthy d1.product_id = true) :
    d1.stable_key = d2.stable_key := by
  unfold DeviceId.stable_key
  rw [h1] at ht1
  rw [h2] at ht2
  rw [h1, h2, h3, ht1, ht2]
  simp only [Bool.true_and]
  by_cases hs : optStrTruthy d2.serial = true
  · rw [hs, if_pos rfl, if_pos rfl]
  · rw [Bool.not_eq_true] at hs
    rw [hs]
    rfl

/-- Witness for the amended C5: the same `(vid, pid, serial)` triple seen by
UPower at path `"a"` and by sysfs at path `"b"` produces the same key. -/
theorem claim5_witness :
    DeviceId.stable_key ⟨.UPOWER, "a", some 0x951, some 0x16E1, some "AB"⟩
      = DeviceId.stable_key ⟨.SYSFS, "b", some 0x951, some 0x16E1, some "AB"⟩ :=
  claim5_amended_key_path_independent _ _ rfl rfl rfl (by decide) (by decide)

/-! ## `core/types.py`: remaining data types used by the manager -/

/-- `ConnectionType` enum. -/
inductive ConnectionType where
  | USB_DONGLE
  | BLUETOOTH_LE
  | WIRED
  | UNKNOWN
deriving DecidableEq

/-- `BatteryReading` dataclass.  The `timestamp` field
(`time.monotonic()`, a float) is outside the embedding and never read by the
manager or tray logic. -/
structure BatteryReading where
  percent : Option Int := none
  is_charging : Bool := false
  provider : ProviderType := .UPOWER
deriving DecidableEq

/-- `Capabilities` dataclass. -/
structure Capabilities where
  battery : Bool := true
  dpi : Bool := false
  led : Bool := false
  buttons : Bool := false
  macros : Bool := false
  polling_rate : Bool := false
  firmware_query : Bool := false
deriving DecidableEq

/-- `DeviceInfo` dataclass.  The `extra: dict[str, Any]` field is omitted:
`Any` is untypeable in the embedding and the manager only carries it
opaquely. -/
structure DeviceInfo where
  device_id : DeviceId
  name : String
  brand : String := "Unknown"
  model : String := ""
  connection : ConnectionType := .UNKNOWN
  capabilities : Capabilities := {}
  battery : Option BatteryReading := none
  firmware : Option String := none
  vendor_id : Option Int := none
  product_id : Option Int := none
  driver_name : Option String := none
deriving DecidableEq

/-! ## `core/manager.py`: `_DeviceManagerCore`

A `BatteryProvider` is embedded by the data the manager consumes: its name,
its priority (`lower = preferred`), the result of `discover()` (which may
raise — caught and logged by `run_discovery`), and `read_battery` (which may
raise — caught and logged by `poll_all_batteries`, and may return `None`). -/
structure Provider where
  name : String
  priority : Int
  discover : Except Unit (List DeviceInfo)
  read_battery : DeviceId → Except Unit (Option BatteryReading)

/-- The manager's mutable state: registered providers (kept sorted by
priority), and the two insertion-ordered dicts keyed by stable key. -/
structure ManagerState where
  providers : List Provider
  devices : List (String × DeviceInfo)
  device_provider : List (String × Provider)

def initManagerState : ManagerState := ⟨[], [], []⟩

/-- The sort key of `self._providers.sort(key=lambda p: p.priority)`. -/
def prLe (p q : Provider) : Prop := p.priority ≤ q.priority

instance : DecidableRel prLe := fun p q => Int.decLe p.priority q.priority
instance : IsTotal Provider prLe := ⟨fun p q => Int.le_total p.priority q.priority⟩
instance : IsTrans Provider prLe := ⟨fun _ _ _ => Int.le_trans⟩

/-- `register_provider`: append, then re-sort by priority.  Python's
`list.sort` is stable; `List.insertionSort` is the standard stable sort. -/
def register_provider (st : ManagerState) (p : Provider) : ManagerState :=
  { st with providers := List.insertionSort prLe (st.providers ++ [p]) }

/-- Register a list of providers in order on a fresh manager. -/
def registerAll (ps : List Provider) : ManagerState :=
  ps.foldl register_provider initManagerState

/-- The inner loop body of `run_discovery`:
`key = device_info.device_id.stable_key; if key not in seen_keys:
seen_keys[key] = device_info; seen_providers[key] = provider`. -/
def discInsert (p : Provider)
    (acc : List (String × DeviceInfo) × List (String × Provider)) (d : DeviceInfo) :
    List (String × DeviceInfo) × List (String × Provider) :=
  if (acc.1.lookup d.device_id.stable_key).isSome then acc
  else (acc.1 ++ [(d.device_id.stable_key, d)], acc.2 ++ [(d.device_id.stable_key, p)])

/-- One provider's contribution to discovery; a raising `discover()` is
logged and skipped. -/
def discStep (acc : List (String × DeviceInfo) × List (String × Provider))
    (p : Provider) : List (String × DeviceInfo) × List (String × Provider) :=
  match p.discover with
  | .error _ => acc
  | .ok found => found.foldl (discInsert p) acc

/-- `run_discovery`: scan all providers in priority order, first writer of a
stable key wins, then replace the device and owner maps wholesale.  Returns
the new state with the `(added, removed)` key lists. -/
def run_discovery (st : ManagerState) :
    ManagerState × List String × List String :=
  let seen := st.providers.foldl discStep ([], [])
  let added := (seen.1.map Prod.fst).filter (fun k => (st.devices.lookup k).isNone)
  let removed := (st.devices.map Prod.fst).filter (fun k => (seen.1.lookup k).isNone)
  ({ st with devices := seen.1, device_provider := seen.2 }, added, removed)

/-- `poll_all_batteries`: for every tracked key, delegate to the owning
provider's `read_battery` inside `try/except`; on a reading, replace the
record's battery wholesale and report it; on `None` or a raise, keep the
record untouched.  The `try/except` is the `match` on the `Except` result,
so the function itself always returns `Except.ok`. -/
def pollStep (st : ManagerState)
    (acc : List (String × DeviceInfo) × List (String × BatteryReading))
    (kd : String × DeviceInfo) :
    List (String × DeviceInfo) × List (String × BatteryReading) :=
  match st.device_provider.lookup kd.1 with
  | none => (acc.1 ++ [kd], acc.2)
  | some p =>
    match p.read_battery kd.2.device_id with
    | .ok (some reading) =>
      (acc.1 ++ [(kd.1, { kd.2 with battery := some reading })],
        acc.2 ++ [(kd.1, reading)])
    | .ok none => (acc.1 ++ [kd], acc.2)
    | .error _ => (acc.1 ++ [kd], acc.2)

def poll_all_batteries (st : ManagerState) :
    Except Unit (ManagerState × List (String × BatteryReading)) :=
  let res := st.devices.foldl (pollStep st) ([], [])
  .ok ({ st with devices := res.1 }, res.2)

/-- The per-record effect of one polling pass (used to state C7). -/
def pollTransform (st : ManagerState) (kd : String × DeviceInfo) :
    String × DeviceInfo :=
  match st.device_provider.lookup kd.1 with
  | none => kd
  | some p =>
    match p.read_battery kd.2.device_id with
    | .ok (some reading) => (kd.1, { kd.2 with battery := some reading })
    | .ok none => kd
    | .error _ => kd

/-! ## Claim C7: battery poll error atomicity -/

/-- One polling step never changes a record's key. -/
theorem pollTransform_fst (st : ManagerState) (kd : String × DeviceInfo) :
    (pollTransform st kd).1 = kd.1 := by
  unfold pollTransform
  split
  · rfl
  · split <;> rfl

/-- The devices component of one polling step. -/
theorem pollStep_devices (st : ManagerState)
    (acc : List (String × DeviceInfo) × List (String × BatteryReading))
    (kd : String × DeviceInfo) :
    (pollStep st acc kd).1 = acc.1 ++ [pollTransform st kd] := by
  unfold pollStep pollTransform
  split
  · rfl
  · split <;> rfl

/-- The devices list after a polling pass is the pointwise transform of the
old list. -/
theorem poll_fold_devices (st : ManagerState) (l : List (String × DeviceInfo)) :
    ∀ acc, (l.foldl (pollStep st) acc).1 = acc.1 ++ l.map (pollTransform st) := by
  induction l with
  | nil => intro acc; simp
  | cons kd l ih =>
    intro acc
    rw [List.foldl_cons, ih, pollStep_devices, List.map_cons, List.append_assoc,
      List.singleton_append]

/-- `List.lookup` on a cons cell, stated for an un-destructured pair. -/
theorem lookup_cons_pair {α β : Type} [BEq α] (k : α) (p : α × β) (l : List (α × β)) :
    List.lookup k (p :: l) = cond (k == p.1) (some p.2) (List.lookup k l) := by
  rcases p with ⟨a, b⟩
  rfl

/-- Looking up a key in the transformed list finds the transform of the old
record. -/
theorem lookup_map_pollTransform (st : ManagerState) (l : List (String × DeviceInfo))
    (k : String) :
    (l.map (pollTransform st)).lookup k
      = (l.lookup k).map (fun d => (pollTransform st (k, d)).2) := by
  induction l with
  | nil => rfl
  | cons kd l ih =>
    rw [List.map_cons, lookup_cons_pair, lookup_cons_pair, pollTransform_fst]
    by_cases hb : (k == kd.1) = true
    · rw [hb]
      simp only [cond_true, Option.map_some']
      have hk : k = kd.1 := eq_of_beq hb
      subst hk
      rfl
    · rw [Bool.not_eq_true] at hb
      rw [hb]
      simp only [cond_false]
      exact ih

/-- **C7.** Battery poll error atomicity: `poll_all_batteries` always
returns (never propagates an exception); the provider and ownership maps are
untouched; and for every tracked key, either its owning provider returned a
reading and the record's battery snapshot is replaced wholesale (all other
fields kept, by record update), or the provider was absent / returned
`None` / raised, and the record — previous battery snapshot included — is
exactly unchanged. -/
theorem claim7_poll_atomicity (st : ManagerState) (k : String) (d : DeviceInfo)
    (hk : st.devices.lookup k = some d) :
    ∃ st2 results, poll_all_batteries st = .ok (st2, results) ∧
      st2.providers = st.providers ∧
      st2.device_provider = st.device_provider ∧
      ((∃ p reading, st.device_provider.lookup k = some p ∧
          p.read_battery d.device_id = .ok (some reading) ∧
          st2.devices.lookup k = some { d with battery := some reading }) ∨
        (st2.devices.lookup k = some d ∧
          (st.device_provider.lookup k = none ∨
            ∃ p, st.device_provider.lookup k = some p ∧
              (p.read_battery d.device_id = .ok none ∨
                ∃ e, p.read_battery d.device_id = .error e)))) := by
  refine ⟨_, _, rfl, rfl, rfl, ?_⟩
  have hdev : (st.devices.foldl (pollStep st) ([], [])).1.lookup k
      = some ((pollTransform st (k, d)).2) := by
    rw [poll_fold_devices, List.nil_append, lookup_map_pollTransform, hk,
      Option.map_some']
  rcases hp : st.device_provider.lookup k with _ | p
  · right
    refine ⟨?_, Or.inl rfl⟩
    rw [hdev, Option.some.injEq]
    unfold pollTransform
    rw [hp]
  · rcases hr : p.read_battery d.device_id with e | reading
    · right
      refine ⟨?_, Or.inr ⟨p, rfl, Or.inr ⟨e, hr⟩⟩⟩
      rw [hdev, Option.some.injEq]
      unfold pollTransform
      rw [hp]
      show (match p.read_battery d.device_id with
        | .ok (some reading) => (k, { d with battery := some reading })
        | .ok none => (k, d)
        | .error _ => (k, d)).2 = d
      rw [hr]
    · rcases reading with _ | r
      · right
        refine ⟨?_, Or.inr ⟨p, rfl, Or.inl hr⟩⟩
        rw [hdev, Option.some.injEq]
        unfold pollTransform
        rw [hp]
        show (match p.read_battery d.device_id with
          | .ok (some reading) => (k, { d with battery := some reading })
          | .ok none => (k, d)
          | .error _ => (k, d)).2 = d
        rw [hr]
      · left
        refine ⟨p, r, rfl, hr, ?_⟩
        rw [hdev, Option.some.injEq]
        unfold pollTransform
        rw [hp]
        show (match p.read_battery d.device_id with
          | .ok (some reading) => (k, { d with battery := some reading })
          | .ok none => (k, d)
          | .error _ => (k, d)).2 = { d with battery := some r }
        rw [hr]

/-- Concrete inputs for the C7 witness: one tracked device whose provider
reports a fresh reading. -/
def c7Device : DeviceInfo :=
  { device_id := { provider := .HID_PROPRIETARY, path := "h" },
    name := "Dart", battery := some { percent := some 40 } }

def c7Provider : Provider :=
  { name := "hid", priority := 30, discover := .ok [],
    read_battery := fun _ => .ok (some { percent := some 60 }) }

def c7State : ManagerState :=
  { providers := [], devices := [("k", c7Device)],
    device_provider := [("k", c7Provider)] }

/-- Witness for C7 at a concrete one-device state whose provider reports a
fresh reading: polling returns, the maps are untouched, and the record's
battery snapshot is replaced wholesale. -/
theorem claim7_witness :
    ∃ st2 results, poll_all_batteries c7State = .ok (st2, results) ∧
      st2.providers = c7State.providers ∧
      st2.device_provider = c7State.device_provider ∧
      ((∃ p reading, c7State.device_provider.lookup "k" = some p ∧
          p.read_battery c7Device.device_id = .ok (some reading) ∧
          st2.devices.lookup "k" = some { c7Device with battery := some reading }) ∨
        (st2.devices.lookup "k" = some c7Device ∧
          (c7State.device_provider.lookup "k" = none ∨
            ∃ p, c7State.device_provider.lookup "k" = some p ∧
              (p.read_battery c7Device.device_id = .ok none ∨
                ∃ e, p.read_battery c7Device.device_id = .error e)))) :=
  claim7_poll_atomicity c7State "k" c7Device rfl

/-! ## Claim C4: registration and discovery lemmas -/

/-- Provider `Q` reports some candidate whose stable key is `k`. -/
def ProviderReports (Q : Provider) (k : String) : Prop :=
  ∃ found, Q.discover = .ok found ∧ ∃ d ∈ found, d.device_id.stable_key = k

/-- Registration only touches the provider list. -/
theorem registerAll_maps (ps : List Provider) :
    ∀ st, (ps.foldl register_provider st).devices = st.devices ∧
      (ps.foldl register_provider st).device_provider = st.device_provider := by
  induction ps with
  | nil => exact fun st => ⟨rfl, rfl⟩
  | cons p ps ih =>
    intro st
    rw [List.foldl_cons]
    exact ih (register_provider st p)

/-- The provider list after a sequence of registrations is a permutation of
the registration order (appended to whatever was there). -/
theorem registerAll_perm (ps : List Provider) :
    ∀ st, ((ps.foldl register_provider st).providers).Perm (st.providers ++ ps) := by
  induction ps with
  | nil => intro st; rw [List.foldl_nil, List.append_nil]
  | cons p ps ih =>
    intro st
    rw [List.foldl_cons]
    refine ((ih (register_provider st p)).trans ?_)
    have h1 : (register_provider st p).providers.Perm (st.providers ++ [p]) :=
      List.perm_insertionSort prLe _
    have h2 : ((register_provider st p).providers ++ ps).Perm
        ((st.providers ++ [p]) ++ ps) := h1.append_right ps
    rw [List.append_assoc, List.singleton_append] at h2
    exact h2

/-- The provider list is kept sorted by priority across registrations. -/
theorem registerAll_sorted (ps : List Provider) :
    ∀ st, st.providers.Sorted prLe →
      ((ps.foldl register_provider st).providers).Sorted prLe := by
  induction ps with
  | nil => exact fun st h => h
  | cons p ps ih =>
    intro st _
    rw [List.foldl_cons]
    exact ih (register_provider st p) (List.sorted_insertionSort prLe _)

/-- `discInsert` keeps an already-claimed key's device. -/
theorem discInsert_some1 (p : Provider)
    (acc : List (String × DeviceInfo) × List (String × Provider)) (d : DeviceInfo)
    (k : String) (v : DeviceInfo) (h : acc.1.lookup k = some v) :
    (discInsert p acc d).1.lookup k = some v := by
  unfold discInsert
  split
  · exact h
  · rw [List.lookup_append, h]
    rfl

/-- `discInsert` keeps an already-claimed key's owning provider. -/
theorem discInsert_some2 (p : Provider)
    (acc : List (String × DeviceInfo) × List (String × Provider)) (d : DeviceInfo)
    (k : String) (w : Provider) (h : acc.2.lookup k = some w) :
    (discInsert p acc d).2.lookup k = some w := by
  unfold discInsert
  split
  · exact h
  · rw [List.lookup_append, h]
    rfl

/-- A device with a different stable key does not disturb lookups at `k`. -/
theorem discInsert_ne (p : Provider)
    (acc : List (String × DeviceInfo) × List (String × Provider)) (d : DeviceInfo)
    (k : String) (hne : d.device_id.stable_key ≠ k) :
    (discInsert p acc d).1.lookup k = acc.1.lookup k ∧
      (discInsert p acc d).2.lookup k = acc.2.lookup k := by
  unfold discInsert
  split
  · exact ⟨rfl, rfl⟩
  · constructor <;>
      · rw [List.lookup_append]
        have : (k == d.device_id.stable_key) = false :=
          beq_false_of_ne (fun h => hne h.symm)
        simp only [List.lookup_cons, this, cond_false, List.lookup_nil, Option.or_none]

/-- Folding one provider's device list keeps claimed keys claimed. -/
theorem discFold_some (p : Provider) (found : List DeviceInfo) :
    ∀ acc (k : String) (v : DeviceInfo) (w : Provider),
      acc.1.lookup k = some v → acc.2.lookup k = some w →
      (found.foldl (discInsert p) acc).1.lookup k = some v ∧
        (found.foldl (discInsert p) acc).2.lookup k = some w := by
  induction found with
  | nil => exact fun acc k v w h1 h2 => ⟨h1, h2⟩
  | cons d found ih =>
    intro acc k v w h1 h2
    rw [List.foldl_cons]
    exact ih _ k v w (discInsert_some1 p acc d k v h1) (discInsert_some2 p acc d k w h2)

/-- Folding devices none of which match `k` leaves lookups at `k` alone. -/
theorem discFold_ne (p : Provider) (found : List DeviceInfo) (k : String)
    (hne : ∀ d ∈ found, d.device_id.stable_key ≠ k) :
    ∀ acc, (found.foldl (discInsert p) acc).1.lookup k = acc.1.lookup k ∧
      (found.foldl (discInsert p) acc).2.lookup k = acc.2.lookup k := by
  induction found with
  | nil => exact fun acc => ⟨rfl, rfl⟩
  | cons d found ih =>
    intro acc
    rw [List.foldl_cons]
    have hd := discInsert_ne p acc d k (hne d (List.mem_cons_self _ _))
    have hrec := ih (fun d hd => hne d (List.mem_cons_of_mem _ hd)) (discInsert p acc d)
    exact ⟨hrec.1.trans hd.1, hrec.2.trans hd.2⟩

/-- A provider that reports nothing for `k` leaves lookups at `k` alone. -/
theorem discStep_not_reports (p : Provider) (k : String)
    (hnr : ¬ ProviderReports p k) :
    ∀ acc, (discStep acc p).1.lookup k = acc.1.lookup k ∧
      (discStep acc p).2.lookup k = acc.2.lookup k := by
  intro acc
  unfold discStep
  rcases hdisc : p.discover with e | found
  · exact ⟨rfl, rfl⟩
  · refine discFold_ne p found k ?_ acc
    intro d hd hk
    exact hnr ⟨found, hdisc, d, hd, hk⟩

/-- A run of non-reporting providers leaves lookups at `k` alone. -/
theorem discSteps_not_reports (L : List Provider) (k : String)
    (hnr : ∀ Q ∈ L, ¬ ProviderReports Q k) :
    ∀ acc, (L.foldl discStep acc).1.lookup k = acc.1.lookup k ∧
      (L.foldl discStep acc).2.lookup k = acc.2.lookup k := by
  induction L with
  | nil => exact fun acc => ⟨rfl, rfl⟩
  | cons q L ih =>
    intro acc
    rw [List.foldl_cons]
    have hq := discStep_not_reports q k (hnr q (List.mem_cons_self _ _)) acc
    have hrec := ih (fun Q hQ => hnr Q (List.mem_cons_of_mem _ hQ)) (discStep acc q)
    exact ⟨hrec.1.trans hq.1, hrec.2.trans hq.2⟩

/-- Any further providers leave a claimed key claimed. -/
theorem discSteps_some (L : List Provider) (k : String) (v : DeviceInfo) (w : Provider) :
    ∀ acc, acc.1.lookup k = some v → acc.2.lookup k = some w →
      (L.foldl discStep acc).1.lookup k = some v ∧
        (L.foldl discStep acc).2.lookup k = some w := by
  induction L with
  | nil => exact fun acc h1 h2 => ⟨h1, h2⟩
  | cons q L ih =>
    intro acc h1 h2
    rw [List.foldl_cons]
    have hq : (discStep acc q).1.lookup k = some v ∧
        (discStep acc q).2.lookup k = some w := by
      unfold discStep
      rcases q.discover with e | found
      · exact ⟨h1, h2⟩
      · exact discFold_some q found acc k v w h1 h2
    exact ih (discStep acc q) hq.1 hq.2

/-- The first provider to claim `k` installs its first matching candidate
and itself as owner. -/
theorem discFold_find (p : Provider) (found : List DeviceInfo) (k : String)
    (d0 : DeviceInfo) :
    ∀ acc, acc.1.lookup k = none → acc.2.lookup k = none →
      found.find? (fun d => d.device_id.stable_key == k) = some d0 →
      (found.foldl (discInsert p) acc).1.lookup k = some d0 ∧
        (found.foldl (discInsert p) acc).2.lookup k = some p := by
  induction found with
  | nil => intro acc h1 h2 hf; cases hf
  | cons d found ih =>
    intro acc h1 h2 hf
    rw [List.foldl_cons]
    by_cases hdk : d.device_id.stable_key = k
    · have hpred : (fun x : DeviceInfo => x.device_id.stable_key == k) d = true :=
        beq_iff_eq.mpr hdk
      rw [@List.find?_cons_of_pos DeviceInfo
        (fun x : DeviceInfo => x.device_id.stable_key == k) d found hpred,
        Option.some.injEq] at hf
      subst hf
      have hguard : (acc.1.lookup d.device_id.stable_key).isSome = false := by
        rw [hdk, h1]
        rfl
      have hstep : (discInsert p acc d).1.lookup k = some d ∧
          (discInsert p acc d).2.lookup k = some p := by
        unfold discInsert
        rw [hguard]
        simp only [Bool.false_eq_true, if_false]
        constructor <;>
          · rw [List.lookup_append, hdk]
            first
              | rw [h1]
              | rw [h2]
            rw [Option.none_or, List.lookup_cons_self]
      exact discFold_some p found (discInsert p acc d) k d p hstep.1 hstep.2
    · have hpred : ¬ ((fun x : DeviceInfo => x.device_id.stable_key == k) d = true) := by
        simp only [beq_iff_eq]
        exact hdk
      rw [@List.find?_cons_of_neg DeviceInfo
        (fun x : DeviceInfo => x.device_id.stable_key == k) d found hpred] at hf
      have hd := discInsert_ne p acc d k hdk
      exact ih (discInsert p acc d) (hd.1.trans h1) (hd.2.trans h2) hf

/-- Discovery over a provider list whose prefix does not report `k`: the
first reporter `P` wins with its first matching candidate. -/
theorem disc_providers_key (L1 L2 : List Provider) (P : Provider) (k : String)
    (foundP : List DeviceInfo) (d0 : DeviceInfo)
    (hdisc : P.discover = .ok foundP)
    (hfind : foundP.find? (fun d => d.device_id.stable_key == k) = some d0)
    (hnr : ∀ Q ∈ L1, ¬ ProviderReports Q k) :
    ((L1 ++ P :: L2).foldl discStep ([], [])).1.lookup k = some d0 ∧
      ((L1 ++ P :: L2).foldl discStep ([], [])).2.lookup k = some P := by
  rw [List.foldl_append, List.foldl_cons]
  have hpre := discSteps_not_reports L1 k hnr ([], [])
  have hP : (discStep (L1.foldl discStep ([], [])) P).1.lookup k = some d0 ∧
      (discStep (L1.foldl discStep ([], [])) P).2.lookup k = some P := by
    unfold discStep
    rw [hdisc]
    exact discFold_find P foundP k d0 _ (hpre.1.trans rfl) (hpre.2.trans rfl) hfind
  exact discSteps_some L2 k d0 P _ hP.1 hP.2

/-- **C4.** Priority arbitration is deterministic: for any registration
order with pairwise-distinct priorities, if provider `P` reports a candidate
for stable key `k` (first match `d0`) and has the minimal priority among all
providers reporting `k`, then after discovery the merged record for `k` is
exactly `d0` (the whole candidate, no field-by-field merge) owned by `P`.
The registration order appears only as an arbitrary quantified list, so the
result is independent of it. -/
theorem claim4_priority_arbitration (regOrder : List Provider) (P : Provider)
    (k : String) (foundP : List DeviceInfo) (d0 : DeviceInfo)
    (hdist : regOrder.Pairwise (fun p q => p.priority ≠ q.priority))
    (hmem : P ∈ regOrder)
    (hdisc : P.discover = .ok foundP)
    (hfind : foundP.find? (fun d => d.device_id.stable_key == k) = some d0)
    (hmin : ∀ Q ∈ regOrder, ProviderReports Q k → P.priority ≤ Q.priority) :
    (run_discovery (registerAll regOrder)).1.devices.lookup k = some d0 ∧
      (run_discovery (registerAll regOrder)).1.device_provider.lookup k = some P := by
  have hperm : (registerAll regOrder).providers.Perm regOrder :=
    registerAll_perm regOrder initManagerState
  have hsorted : (registerAll regOrder).providers.Sorted prLe :=
    registerAll_sorted regOrder initManagerState List.sorted_nil
  have hdistL : (registerAll regOrder).providers.Pairwise
      (fun p q => p.priority ≠ q.priority) :=
    (List.Perm.pairwise_iff (fun h => Ne.symm h) hperm).mpr hdist
  have hmemL : P ∈ (registerAll regOrder).providers := hperm.mem_iff.mpr hmem
  have hminL : ∀ Q ∈ (registerAll regOrder).providers,
      ProviderReports Q k → P.priority ≤ Q.priority :=
    fun Q hQ => hmin Q (hperm.subset hQ)
  obtain ⟨L1, L2, hsplit⟩ := List.append_of_mem hmemL
  rw [hsplit] at hsorted hdistL hminL
  have hnr : ∀ Q ∈ L1, ¬ ProviderReports Q k := by
    intro Q hQ hrep
    have hle : prLe Q P :=
      (List.pairwise_append.mp hsorted).2.2 Q hQ P (List.mem_cons_self _ _)
    have hne : Q.priority ≠ P.priority :=
      (List.pairwise_append.mp hdistL).2.2 Q hQ P (List.mem_cons_self _ _)
    have hge : P.priority ≤ Q.priority :=
      hminL Q (List.mem_append_left _ hQ) hrep
    exact hne (le_antisymm hle hge)
  have hkey := disc_providers_key L1 L2 P k foundP d0 hdisc hfind hnr
  have hdev : (run_discovery (registerAll regOrder)).1.devices
      = (((registerAll regOrder).providers).foldl discStep ([], [])).1 := rfl
  have hdpr : (run_discovery (registerAll regOrder)).1.device_provider
      = (((registerAll regOrder).providers).foldl discStep ([], [])).2 := rfl
  rw [hdev, hdpr, hsplit]
  exact hkey

/-- Concrete inputs for the C4 witness: the same mouse
(`vid=0x0951, pid=0x16E1`) reported by a priority-10 provider with
`percent=60` and a priority-30 provider with `percent=58`. -/
def c4Id60 : DeviceId :=
  { provider := .UPOWER, path := "up0",
    vendor_id := some 0x951, product_id := some 0x16E1 }

def c4Id58 : DeviceId :=
  { provider := .SYSFS, path := "sys0",
    vendor_id := some 0x951, product_id := some 0x16E1 }

def c4Dev60 : DeviceInfo :=
  { device_id := c4Id60, name := "Pulsefire",
    battery := some { percent := some 60 } }

def c4Dev58 : DeviceInfo :=
  { device_id := c4Id58, name := "Pulsefire",
    battery := some { percent := some 58 } }

def c4P10 : Provider :=
  { name := "UPower", priority := 10, discover := .ok [c4Dev60],
    read_battery := fun _ => .ok none }

def c4P30 : Provider :=
  { name := "sysfs", priority := 30, discover := .ok [c4Dev58],
    read_battery := fun _ => .ok none }

/-- Witness for C4: registering the priority-30 provider *first* and the
priority-10 provider second, the merged record for `"0951:16e1"` is exactly
the priority-10 provider's candidate (`percent=60`), owned by it. -/
theorem claim4_witness :
    (run_discovery (registerAll [c4P30, c4P10])).1.devices.lookup "0951:16e1"
        = some c4Dev60 ∧
      (run_discovery (registerAll [c4P30, c4P10])).1.device_provider.lookup "0951:16e1"
        = some c4P10 :=
  claim4_priority_arbitration [c4P30, c4P10] c4P10 "0951:16e1" [c4Dev60] c4Dev60
    (by
      constructor
      · intro q hq
        rw [List.mem_singleton.mp hq]
        norm_num [c4P30, c4P10]
      · exact List.pairwise_singleton _ _)
    (List.mem_cons_of_mem _ (List.mem_cons_self _ _))
    rfl
    (by decide)
    (by
      intro Q hQ _
      rcases List.mem_cons.mp hQ with rfl | hQ
      · norm_num [c4P30, c4P10]
      · rw [List.mem_singleton.mp hQ])

/-! ## `protocol.py`: `build_macro_packets` -/

/-- `MacroEvent` named tuple: an event type string
(`'delay'`, `'key_down'`, `'key_up'`, `'mouse_down'`, `'mouse_up'`) and a
code (key scancode, mouse button, or delay in ms). -/
structure MacroEvent where
  event_type : String
  code : Int
deriving DecidableEq

/-- The row encoding of one macro event (10 bytes).  Unrecognised event
types produce no row, exactly as the Python `if/elif` chain silently skips
them.  A delay is `ms // 2` little-endian; key/mouse events carry the raw
code in byte 1 (range-checked only later by `bytes()`). -/
def encode_macro_row (e : MacroEvent) : Option (List Int) :=
  if e.event_type = "delay" then
    some [(e.code.fdiv 2) % 256, ((e.code.fdiv 2).fdiv 256) % 256, 0, 0, 0, 0, 0, 0, 0, 0]
  else if e.event_type = "key_down" ∨ e.event_type = "key_up" then
    some [0x1A, e.code, if e.event_type = "key_down" then 0x01 else 0x02,
      0, 0, 0, 0, 0, 0, 0]
  else if e.event_type = "mouse_down" ∨ e.event_type = "mouse_up" then
    some [0x25, e.code, if e.event_type = "mouse_down" then 0x01 else 0x02,
      0, 0, 0, 0, 0, 0, 0]
  else none

/-- The packet loop of `build_macro_packets`: rows are taken 6 at a time;
`k` is the running sequence index (`i // 6`); the count byte is the literal
chunk length for the last packet and `0x86` otherwise (`is_last` in the
source is `i + 6 >= len(event_rows)`, i.e. no rows remain after this
chunk).  A failing `bytes()` (`ValueError`) aborts the whole build. -/
def macroChunkLoop (button : Int) (rows : List (List Int)) (k : Nat) :
    Option (List (List Nat)) :=
  match rows with
  | [] => some []
  | r :: rs =>
    match _make_packet ([CMD_MACRO_DATA, button, (k : Int),
        if ((r :: rs).drop 6).isEmpty then (((r :: rs).take 6).length : Int) else 0x86]
        ++ ((r :: rs).take 6).flatten) with
    | none => none
    | some pkt =>
      match macroChunkLoop button ((r :: rs).drop 6) (k + 1) with
      | none => none
      | some pkts => some (pkt :: pkts)
termination_by rows.length
decreasing_by
  simp only [List.length_drop, List.length_cons]
  omega

/-- `build_macro_packets(button, events)`: encode rows, chunk them into
packets; an empty row list still emits exactly one packet with count 0. -/
def build_macro_packets (button : Int) (events : List MacroEvent) :
    Option (List (List Nat)) :=
  let event_rows := events.filterMap encode_macro_row
  if event_rows.isEmpty then
    match _make_packet [CMD_MACRO_DATA, button, 0x00, 0x00] with
    | none => none
    | some pkt => some [pkt]
  else macroChunkLoop button event_rows 0

/-! ## Claim C8: helper lemmas -/

theorem getD_replicate_zero (n j : Nat) : (List.replicate n (0 : Nat)).getD j 0 = 0 := by
  rcases Nat.lt_or_ge j n with h | h
  · rw [List.getD_eq_getElem _ _ (by simpa using h), List.getElem_replicate]
  · rw [List.getD_eq_default]
    simpa using h

/-- Frame byte 4 of a packet built from a 4-byte header plus rows is the
header's fourth entry (the count byte). -/
theorem packet_byte4 (a b c d : Int) (J : List Int) :
    ((padPacket ([a, b, c, d] ++ J)).map Int.toNat).getD 4 0 = d.toNat := rfl

theorem packet_byte4_nil (a b c d : Int) :
    ((padPacket [a, b, c, d]).map Int.toNat).getD 4 0 = d.toNat := rfl

/-- Past the 4-byte header, a packet with no rows is all zeros. -/
theorem packet_tail_zero (a b c d : Int) (j : Nat) (hj : 5 ≤ j) :
    ((padPacket [a, b, c, d]).map Int.toNat).getD j 0 = 0 := by
  have h1 : (padPacket [a, b, c, d]).map Int.toNat
      = [0, a.toNat, b.toNat, c.toNat, d.toNat] ++ List.replicate 59 0 := by
    show (0 :: ([a, b, c, d].take 63 ++ List.replicate (63 - 4) 0)).map Int.toNat = _
    rw [List.take_of_length_le (by norm_num)]
    rw [List.map_cons, List.map_append, List.map_replicate]
    rfl
  rw [h1, List.getD_append_right _ _ _ _ (by simpa using by omega : _ ≤ j),
    getD_replicate_zero]

/-- The event domain named by the claim: one of the five recognised kinds,
with key/mouse codes in byte range (required by `bytes()`). -/
def validMacroEvent (e : MacroEvent) : Prop :=
  e.event_type = "delay" ∨
    ((e.event_type = "key_down" ∨ e.event_type = "key_up" ∨
        e.event_type = "mouse_down" ∨ e.event_type = "mouse_up") ∧
      0 ≤ e.code ∧ e.code < 256)

/-- A valid event encodes to a row of in-range bytes. -/
theorem encode_macro_row_valid (e : MacroEvent) (h : validMacroEvent e) :
    ∃ row, encode_macro_row e = some row ∧ ∀ b ∈ row, 0 ≤ b ∧ b < 256 := by
  unfold encode_macro_row
  rcases h with hd | ⟨hk, hc1, hc2⟩
  · rw [if_pos hd]
    refine ⟨_, rfl, ?_⟩
    intro b hb
    simp only [List.mem_cons, List.not_mem_nil, or_false] at hb
    have e1 : 0 ≤ e.code.fdiv 2 % 256 ∧ e.code.fdiv 2 % 256 < 256 := by omega
    have e2 : 0 ≤ (e.code.fdiv 2).fdiv 256 % 256 ∧ (e.code.fdiv 2).fdiv 256 % 256 < 256 := by
      omega
    rcases hb with rfl | rfl | rfl | rfl | rfl | rfl | rfl | rfl | rfl | rfl
    · exact e1
    · exact e2
    all_goals constructor <;> norm_num
  · have hnotd : ¬ e.event_type = "delay" := by
      rcases hk with h | h | h | h <;> rw [h] <;> decide
    rw [if_neg hnotd]
    by_cases hkm : e.event_type = "key_down" ∨ e.event_type = "key_up"
    · rw [if_pos hkm]
      refine ⟨_, rfl, ?_⟩
      intro b hb
      simp only [List.mem_cons, List.not_mem_nil, or_false] at hb
      rcases hb with rfl | rfl | rfl | rfl | rfl | rfl | rfl | rfl | rfl | rfl
      · constructor <;> norm_num
      · exact ⟨hc1, hc2⟩
      · constructor <;> split <;> norm_num
      all_goals constructor <;> norm_num
    · have hm : e.event_type = "mouse_down" ∨ e.event_type = "mouse_up" := by
        rcases hk with h | h | h | h
        · exact absurd (Or.inl h) hkm
        · exact absurd (Or.inr h) hkm
        · exact Or.inl h
        · exact Or.inr h
      rw [if_neg hkm, if_pos hm]
      refine ⟨_, rfl, ?_⟩
      intro b hb
      simp only [List.mem_cons, List.not_mem_nil, or_false] at hb
      rcases hb with rfl | rfl | rfl | rfl | rfl | rfl | rfl | rfl | rfl | rfl
      · constructor <;> norm_num
      · exact ⟨hc1, hc2⟩
      · constructor <;> split <;> norm_num
      all_goals constructor <;> norm_num

/-- Valid events produce exactly one row each. -/
theorem rows_length_of_valid (events : List MacroEvent)
    (h : ∀ e ∈ events, validMacroEvent e) :
    (events.filterMap encode_macro_row).length = events.length := by
  induction events with
  | nil => rfl
  | cons e events ih =>
    obtain ⟨row, hrow, -⟩ := encode_macro_row_valid e (h e (List.mem_cons_self _ _))
    rw [List.filterMap_cons, hrow, List.length_cons,
      ih (fun e he => h e (List.mem_cons_of_mem _ he)), List.length_cons]

/-- Every row produced from valid events consists of in-range bytes. -/
theorem rows_valid_of_valid (events : List MacroEvent)
    (h : ∀ e ∈ events, validMacroEvent e) :
    ∀ row ∈ events.filterMap encode_macro_row, ∀ b ∈ row, 0 ≤ b ∧ b < 256 := by
  intro row hrow
  rw [List.mem_filterMap] at hrow
  obtain ⟨e, he, henc⟩ := hrow
  obtain ⟨row2, hrow2, hval⟩ := encode_macro_row_valid e (h e he)
  rw [hrow2, Option.some.injEq] at henc
  rw [← henc]
  exact hval

/-- `bytes()` raises when a kept entry is out of range. -/
theorem _make_packet_none (data : List Int) (b : Int) (hb : b ∈ data.take 63)
    (hout : ¬ (0 ≤ b ∧ b < 256)) : _make_packet data = none := by
  unfold _make_packet pyBytes
  rw [if_neg]
  intro hall
  rw [List.all_eq_true] at hall
  have := hall b (List.mem_cons_of_mem _ (List.mem_append_left _ hb))
  simp only [Bool.and_eq_true, decide_eq_true_eq] at this
  exact hout this

/-- Once more than `6 * (256 - k)` rows remain, the sequence-index byte
eventually reaches 256 and the build fails. -/
theorem macroChunkLoop_none (button : Int) :
    ∀ (n : Nat) (rows : List (List Int)) (k : Nat), rows.length ≤ n →
      6 * (256 - k) < rows.length →
      macroChunkLoop button rows k = none := by
  intro n
  induction n with
  | zero =>
    intro rows k hn hlong
    exact absurd hlong (by omega)
  | succ n ih =>
    intro rows k hn hlong
    rcases rows with _ | ⟨r, rs⟩
    · exact absurd hlong (by simp)
    · simp only [macroChunkLoop]
      by_cases hk : 256 ≤ k
      · have hmem : ((k : Nat) : Int) ∈ ([CMD_MACRO_DATA, button, ((k : Nat) : Int),
            if ((r :: rs).drop 6).isEmpty then ((((r :: rs).take 6).length : Nat) : Int)
            else 0x86] ++ ((r :: rs).take 6).flatten).take 63 :=
          List.mem_cons_of_mem _ (List.mem_cons_of_mem _ (List.mem_cons_self _ _))
        rw [_make_packet_none _ _ hmem (by omega)]
      · have hrec := ih ((r :: rs).drop 6) (k + 1)
          (by simp only [List.length_drop, List.length_cons] at hn ⊢; omega)
          (by simp only [List.length_drop, List.length_cons] at hlong ⊢; omega)
        rw [hrec]
        split <;> rfl

/-- The macro chunk loop on valid rows: it succeeds, produces
`⌈rows/6⌉` packets, writes `0x86` into frame byte 4 of every non-final
packet, and the literal remaining row count into the final packet's. -/
theorem macroChunkLoop_spec (button : Int) (hb0 : 0 ≤ button) (hb1 : button < 256) :
    ∀ (n : Nat) (rows : List (List Int)) (k : Nat),
      rows.length ≤ n →
      (∀ row ∈ rows, ∀ b ∈ row, 0 ≤ b ∧ b < 256) →
      k + (rows.length + 5) / 6 ≤ 256 →
      ∃ ps, macroChunkLoop button rows k = some ps ∧
        ps.length = (rows.length + 5) / 6 ∧
        (∀ i, i + 1 < ps.length → (ps.getD i []).getD 4 0 = 0x86) ∧
        (rows ≠ [] →
          (ps.getD (ps.length - 1) []).getD 4 0 = rows.length - 6 * (ps.length - 1)) := by
  intro n
  induction n with
  | zero =>
    intro rows k hn hval hk
    have hnil : rows = [] := List.length_eq_zero.mp (Nat.le_zero.mp hn)
    subst hnil
    exact ⟨[], by simp only [macroChunkLoop], rfl,
      fun i hi => by simp at hi, fun h => absurd rfl h⟩
  | succ n ih =>
    intro rows k hn hval hk
    rcases rows with _ | ⟨r, rs⟩
    · exact ⟨[], by simp only [macroChunkLoop], rfl,
        fun i hi => by simp at hi, fun h => absurd rfl h⟩
    · have htake6 : ((r :: rs).take 6).length ≤ 6 := by
        rw [List.length_take]
        omega
      have hcount : 0 ≤ (if ((r :: rs).drop 6).isEmpty then
            ((((r :: rs).take 6).length : Nat) : Int) else 0x86) ∧
          (if ((r :: rs).drop 6).isEmpty then ((((r :: rs).take 6).length : Nat) : Int)
            else 0x86) < 256 := by
        split
        · constructor
          · positivity
          · omega
        · norm_num
      have hkbound : k < 256 := by
        have h6 : 1 ≤ ((r :: rs).length + 5) / 6 := by
          simp only [List.length_cons]
          omega
        omega
      have hmk := _make_packet_eq ([CMD_MACRO_DATA, button, ((k : Nat) : Int),
          if ((r :: rs).drop 6).isEmpty then ((((r :: rs).take 6).length : Nat) : Int)
          else 0x86] ++ ((r :: rs).take 6).flatten) ?hvalid
      case hvalid =>
        intro b hb
        rcases List.mem_append.mp hb with hhd | hfl
        · simp only [List.mem_cons, List.not_mem_nil, or_false] at hhd
          rcases hhd with rfl | rfl | rfl | rfl
          · norm_num [CMD_MACRO_DATA]
          · exact ⟨hb0, hb1⟩
          · constructor
            · positivity
            · omega
          · exact hcount
        · rw [List.mem_flatten] at hfl
          obtain ⟨row, hrow, hbrow⟩ := hfl
          exact hval row (List.mem_of_mem_take hrow) b hbrow
      obtain ⟨ps2, hloop2, hlen2, hmid2, hlast2⟩ := ih ((r :: rs).drop 6) (k + 1)
        (by simp only [List.length_drop, List.length_cons] at hn ⊢; omega)
        (fun row hrow => hval row (List.mem_of_mem_drop hrow))
        (by simp only [List.length_drop, List.length_cons] at hk ⊢; omega)
      simp only [macroChunkLoop]
      rw [hmk, hloop2]
      refine ⟨_, rfl, ?_, ?_, ?_⟩
      · rw [List.length_cons, hlen2]
        simp only [List.length_drop, List.length_cons]
        omega
      · intro i hi
        match i with
        | 0 =>
          rw [List.length_cons] at hi
          have hne : ((r :: rs).drop 6) ≠ [] := by
            intro hcontra
            rw [hcontra] at hlen2
            simp only [List.length_nil] at hlen2
            omega
          have hempf : ((r :: rs).drop 6).isEmpty = false := by
            cases hemp : ((r :: rs).drop 6).isEmpty
            · rfl
            · exact absurd (List.isEmpty_iff.mp hemp) hne
          rw [List.getD_cons_zero, packet_byte4, hempf]
          simp only [Bool.false_eq_true, if_false]
          decide
        | i + 1 =>
          rw [List.getD_cons_succ]
          apply hmid2
          rw [List.length_cons] at hi
          omega
      · intro hne0
        cases hemp : ((r :: rs).drop 6).isEmpty
        · have hne : ((r :: rs).drop 6) ≠ [] := by
            intro hcontra
            rw [hcontra] at hemp
            cases hemp
          have hdl : 0 < ((r :: rs).drop 6).length := List.length_pos.mpr hne
          have hlen2ge : 1 ≤ ps2.length := by omega
          have hidx : ps2.length + 1 - 1 = (ps2.length - 1) + 1 := by omega
          rw [List.length_cons, hidx, List.getD_cons_succ, hlast2 hne]
          simp only [List.length_drop, List.length_cons]
          omega
        · have hnil2 : (r :: rs).drop 6 = [] := List.isEmpty_iff.mp hemp
          have hps20 : ps2.length = 0 := by
            rw [hnil2] at hlen2
            simp only [List.length_nil] at hlen2
            omega
          have hps2 : ps2 = [] := List.length_eq_zero.mp hps20
          subst hps2
          simp only [List.length_cons, List.length_nil, Nat.zero_add, Nat.sub_self]
          rw [List.getD_cons_zero, packet_byte4, if_pos trivial, Int.toNat_natCast,
            List.length_take]
          have h0 := congrArg List.length hnil2
          simp only [List.length_drop, List.length_nil, List.length_cons] at h0
          simp only [List.length_cons]
          omega

/-- `filterMap` over a replicated element whose image is `some b`. -/
theorem filterMap_replicate_some {α β : Type} (f : α → Option β) (a : α) (b : β)
    (h : f a = some b) : ∀ n, (List.replicate n a).filterMap f = List.replicate n b := by
  intro n
  induction n with
  | zero => rfl
  | succ n ih =>
    simp only [List.replicate_succ, List.filterMap_cons, h, ih]

/-- Claim C8 (counterexample): the claim says every list of N macro events
yields `ceil(N/6)` packets, with no bound on N.  But the sequence-order byte
`i // 6` is written into the packet unreduced, so at 257 chunks (N = 1537
events, all of them plain delays) it reaches 256 and `bytes()` raises
`ValueError`: `build_macro_packets` fails instead of returning 257 packets. -/
theorem claim8_counterexample :
    build_macro_packets 0 (List.replicate 1537 ⟨"delay", 0⟩) = none := by
  have hrows : (List.replicate 1537 (⟨"delay", 0⟩ : MacroEvent)).filterMap encode_macro_row
      = List.replicate 1537 [0, 0, 0, 0, 0, 0, 0, 0, 0, 0] :=
    filterMap_replicate_some encode_macro_row ⟨"delay", 0⟩
      [0, 0, 0, 0, 0, 0, 0, 0, 0, 0] rfl 1537
  have hne : ((List.replicate 1537 (⟨"delay", 0⟩ : MacroEvent)).filterMap
      encode_macro_row).isEmpty = false := by
    rw [hrows]; rfl
  simp only [build_macro_packets, hne, Bool.false_eq_true, if_false]
  rw [hrows]
  exact macroChunkLoop_none 0 1537 _ 0 (le_of_eq (List.length_replicate _ _))
    (by rw [List.length_replicate]; norm_num)

/-- Claim C8 (amended): for a button byte in range and at most 1536 valid
macro events (so the sequence byte stays below 256), `build_macro_packets`
returns `ceil(N/6)` packets for N > 0 and exactly one packet for N = 0;
frame byte 4 (the count byte) is `0x86` on every non-final packet and the
literal row count (between 1 and 6) on the final one; the empty-list packet
carries count 0 and only zeros after the header. -/
theorem claim8_macro_chunking (button : Int) (events : List MacroEvent)
    (hb0 : 0 ≤ button) (hb1 : button < 256)
    (hval : ∀ e ∈ events, validMacroEvent e)
    (hlen : events.length ≤ 1536) :
    ∃ ps, build_macro_packets button events = some ps ∧
      ps.length = (if events.length = 0 then 1 else (events.length + 5) / 6) ∧
      (∀ i, i + 1 < ps.length → (ps.getD i []).getD 4 0 = 0x86) ∧
      (events ≠ [] →
        (ps.getD (ps.length - 1) []).getD 4 0 = events.length - 6 * (ps.length - 1) ∧
        1 ≤ events.length - 6 * (ps.length - 1) ∧
        events.length - 6 * (ps.length - 1) ≤ 6) ∧
      (events = [] →
        (ps.getD 0 []).getD 4 0 = 0 ∧ ∀ j, 5 ≤ j → (ps.getD 0 []).getD j 0 = 0) := by
  rcases events with _ | ⟨e, es⟩
  · have hmk := _make_packet_eq [CMD_MACRO_DATA, button, 0x00, 0x00] ?hv
    case hv =>
      intro b hb
      simp only [List.mem_cons, List.not_mem_nil, or_false] at hb
      rcases hb with rfl | rfl | rfl | rfl
      · norm_num [CMD_MACRO_DATA]
      · exact ⟨hb0, hb1⟩
      · norm_num
      · norm_num
    refine ⟨[(padPacket [CMD_MACRO_DATA, button, 0x00, 0x00]).map Int.toNat],
      ?_, by simp, fun i hi => absurd hi (by simp only [List.length_cons, List.length_nil]; omega),
      fun h => absurd rfl h, fun _ => ⟨?_, ?_⟩⟩
    · simp only [build_macro_packets, List.filterMap_nil, List.isEmpty_nil, if_true, hmk]
    · rw [List.getD_cons_zero, packet_byte4_nil]
      rfl
    · intro j hj
      rw [List.getD_cons_zero]
      exact packet_tail_zero _ _ _ _ j hj
  · have hrlen := rows_length_of_valid (e :: es) hval
    have hrval := rows_valid_of_valid (e :: es) hval
    obtain ⟨ps, hloop, hlen2, hmid, hlast⟩ := macroChunkLoop_spec button hb0 hb1
      ((e :: es).filterMap encode_macro_row).length _ 0 (le_refl _) hrval
      (by rw [hrlen]; simp only [List.length_cons] at hlen ⊢; omega)
    have hne : ((e :: es).filterMap encode_macro_row).isEmpty = false := by
      cases hcase : ((e :: es).filterMap encode_macro_row).isEmpty
      · rfl
      · exfalso
        rw [List.isEmpty_iff.mp hcase] at hrlen
        simp only [List.length_nil, List.length_cons] at hrlen
        omega
    have hrne : (e :: es).filterMap encode_macro_row ≠ [] :=
      fun hcontra => by simp [hcontra] at hne
    refine ⟨ps, ?_, ?_, hmid, ?_, fun h => absurd h (List.cons_ne_nil e es)⟩
    · simp only [build_macro_packets, hne, Bool.false_eq_true, if_false]
      exact hloop
    · rw [if_neg (by simp), hlen2, hrlen]
    · intro _
      refine ⟨?_, ?_, ?_⟩
      · rw [← hrlen]
        exact hlast hrne
      · have hpos : 1 ≤ (e :: es).length := by simp only [List.length_cons]; omega
        omega
      · have hpos : 1 ≤ (e :: es).length := by simp only [List.length_cons]; omega
        omega

instance validMacroEvent.dec (e : MacroEvent) : Decidable (validMacroEvent e) := by
  unfold validMacroEvent
  infer_instance

def c8events : List MacroEvent :=
  [⟨"delay", 1000⟩, ⟨"key_down", 4⟩, ⟨"key_up", 4⟩, ⟨"mouse_down", 1⟩,
    ⟨"mouse_up", 1⟩, ⟨"delay", 500⟩, ⟨"key_down", 5⟩]

/-- Claim C8 witness: seven concrete events on button 3 satisfy every
hypothesis and yield the amended conclusion (two packets: one continuation
packet with count byte `0x86`, one final packet with count 1). -/
theorem claim8_witness :
    (0 ≤ (3 : Int) ∧ (3 : Int) < 256 ∧
      (∀ e ∈ c8events, validMacroEvent e) ∧ c8events.length ≤ 1536) ∧
    (∃ ps, build_macro_packets 3 c8events = some ps ∧
      ps.length = (if c8events.length = 0 then 1 else (c8events.length + 5) / 6) ∧
      (∀ i, i + 1 < ps.length → (ps.getD i []).getD 4 0 = 0x86) ∧
      (c8events ≠ [] →
        (ps.getD (ps.length - 1) []).getD 4 0 = c8events.length - 6 * (ps.length - 1) ∧
        1 ≤ c8events.length - 6 * (ps.length - 1) ∧
        c8events.length - 6 * (ps.length - 1) ≤ 6) ∧
      (c8events = [] →
        (ps.getD 0 []).getD 4 0 = 0 ∧ ∀ j, 5 ≤ j → (ps.getD 0 []).getD j 0 = 0)) :=
  ⟨⟨by norm_num, by norm_num, by decide, by decide⟩,
    claim8_macro_chunking 3 c8events (by norm_num) (by norm_num) (by decide) (by decide)⟩

end PulsefireSpec
